import Mathlib

/-!
Verification of the L-system interpreter `lindenmayer_system`
(`src/lindenmayer_systems.py`) against its natural-language specification.

The embedding is shallow: strings are `List Char`, coordinates and angles are
rationals, and the turtle's trigonometry (`cos`/`sin` of the heading, used by
`turtle.forward`) is abstracted as an explicit direction function
`dir : ℚ → ℚ × ℚ` passed to every definition; theorems are proved for every
such function, and concrete witnesses instantiate it with the exact direction
vectors for headings that are multiples of 90 degrees (where the Python
floats are exact as well).  Renderer (turtle/screen) mutations are recorded
as an explicit event trace; screen-only operations (window titling, resizing,
background colour, the helper text turtle, tracer control) are not part of
the trace, matching the spec's scoping of the renderer.  Python `warnings`
emissions are modelled as a list of `warn` calls (each carrying the axiom
string of the emitting recursion level).  Python exceptions are modelled by
an `Err` sum: `ValueError`s raised by the validator and parser, the
`AssertionError` for zero step length / compression factor, the
`IndexError` that the line-125 list display `[i[0], i]` raises by eagerly
evaluating `''[0]` for a plain-string empty production, and the
`NameError` that the validator's f-string raises when the scratch variable
`e3` is unbound (tuple production with empty replacement and no previously
scanned symbol).
-/

attribute [local semireducible] Rat.add Rat.sub Rat.inv Rat.mul

namespace LSys

/-- A coordinate pair, `turtle.pos()`. -/
abbrev Cord := ℚ × ℚ

/-- The turtle state the interpreter reads and writes: position and heading
(degrees, normalised to `[0, 360)` as `turtle.heading()` reports it). -/
structure TState where
  pos : Cord
  head : ℚ
deriving Repr, DecidableEq

/-- Renderer operations performed on the drawing turtle, in order. -/
inductive Ev where
  | hide
  | penUp
  | penDown
  | goto (p : Cord)
  | setH (h : ℚ)
  | turnL (a : ℚ)
  | turnR (a : ℚ)
  | colorOp
  | forward (d : ℚ) (endp : Cord)
deriving Repr, DecidableEq

/-- Python exceptions escaping `lindenmayer_system`, with the data their
messages interpolate.  `badVar`, `badAxiomChar`, `badProdChar`,
`unmatchedBracket`, `unknownVar` and `invalidChar` are the `ValueError`s of
lines 119, 122, 126, 231, 280 and 282; `assertErr` is the `assert` on line
129; `indexErr` is the `IndexError` raised by `''[0]` on line 125 — the
list display `[i[0], i]` evaluates `i[0]` eagerly, so a plain-string empty
production aborts before any check of that item runs; `nameErr` is the
`NameError` (`UnboundLocalError`) raised while formatting the line-126
message when `e3` (or `e2`) was never bound, reachable only for a tuple
production with an empty replacement. -/
inductive Err where
  | badVar (k : List Char)
  | badAxiomChar (c : Char)
  | badProdChar (c : Char) (repl : List Char) (v : List Char)
  | indexErr
  | nameErr
  | assertErr
  | unmatchedBracket (idx : ℕ)
  | unknownVar (c : Char)
  | invalidChar (c : Char)
deriving Repr, DecidableEq

/-- A variable's value in the `vars` dictionary: either a plain replacement
string or an explicit `(replacement, draws-forward)` pair. -/
inductive Production where
  | plain (s : List Char)
  | pair (s : List Char) (draw : Bool)
deriving Repr, DecidableEq

/-- The `vars` dictionary, in declaration (insertion) order. -/
abbrev Vars := List (List Char × Production)

/-- `[i[0], i][isinstance(i, str)]` (line 125): the replacement string of a
production. -/
def replOf : Production → List Char
  | .plain s => s
  | .pair s _ => s

/-- The line-125 extraction `[i[0], i][isinstance(i, str)]` as the
validator's generator performs it: the list display evaluates `i[0]`
eagerly, so a plain-string production raises `IndexError` when the string
is empty (even though that element would be discarded); otherwise the
selected element is the replacement string. -/
def replExtract : Production → Except Err (List Char)
  | .plain [] => .error .indexErr
  | .plain s => .ok s
  | .pair s _ => .ok s

/-- `(properties, var_index == 0) if isinstance(properties, str) else
properties` (line 245): the draws-forward flag of the production at
declaration index `i`. -/
def drawOf (i : ℕ) : Production → Bool
  | .plain _ => i = 0
  | .pair _ b => b

/-- Heading normalisation: Python's `turtle` keeps headings in `[0, 360)`
(`seth((...) % 360)` on line 112, and `heading()` always reports mod 360).
`Rat.floor` is used (rather than `⌊⌋`) to keep the definition
kernel-computable; the two agree (`ratFloor_eq` below). -/
def hmod (h : ℚ) : ℚ := h - 360 * (Rat.floor (h / 360) : ℚ)

/-- `len(var) == 1 and var.isupper()` (line 118), for the ASCII alphabet the
spec declares (uppercase letters). -/
def isValidKey : List Char → Bool
  | [c] => c.isUpper
  | _ => false

/-- `c in vars.keys()` for a one-character string `c`. -/
def isKeyOf (vars : Vars) (c : Char) : Bool := vars.any (fun kv => kv.1 = [c])

/-- `c in '[]+-'`. -/
def isSymb (c : Char) : Bool := c = '[' || c = ']' || c = '+' || c = '-'

/-- A character allowed in the axiom or in a replacement: a variable key or
one of `[`, `]`, `+`, `-` (lines 121 and 124). -/
def validChar (vars : Vars) (c : Char) : Bool := isKeyOf vars c || isSymb c

/-- Line 118-119: the first variable name that is not a single uppercase
letter is reported in a `ValueError`. -/
def checkA (vars : Vars) : Except Err Unit :=
  match vars.find? (fun kv => ! isValidKey kv.1) with
  | some kv => .error (.badVar kv.1)
  | none => .ok ()

/-- Line 121-122: the first axiom character that is neither a variable key
nor one of `[]+-` is reported in a `ValueError`. -/
def checkB (ax : List Char) (vars : Vars) : Except Err Unit :=
  match ax.find? (fun c => ! validChar vars c) with
  | some c => .error (.badAxiomChar c)
  | none => .ok ()

/-- The inner generator of line 124: scan a replacement; the walrus `e3 := c`
binds `e3` to every character that is not a variable key (before it is
tested against `'[]+-'`), and the first invalid character aborts with the
line-126 `ValueError`.  Returns the final binding of `e3`. -/
def scanRepl (vars : Vars) (v full : List Char) : List Char → Option Char → Except Err (Option Char)
  | [], e3 => .ok e3
  | c :: cs, e3 =>
    if isKeyOf vars c then scanRepl vars v full cs e3
    else if isSymb c then scanRepl vars v full cs (some c)
    else .error (.badProdChar c full v)

/-- Lines 124-127, item by item in declaration order.  For each variable the
generator first performs the line-125 extraction (`replExtract`, which
raises `IndexError` for a plain-string empty production before any check of
that item), then evaluates the condition, threading the walrus-bound scratch
variables `e2` and `e3` across iterations: `not (e1 := var)` can only fire
for an empty key (dead after `checkA`); `not (e2 := repl)` fires for an
empty replacement (only reachable for a tuple production); in either case
the f-string of line 126 interpolates `e3` (and, for an empty key, `e2`),
which raises `NameError` when unbound and otherwise produces a `ValueError`
citing a stale character. -/
def checkC (vars : Vars) : Vars → Option (List Char) → Option Char → Except Err Unit
  | [], _, _ => .ok ()
  | (v, p) :: rest, e2, e3 =>
    match replExtract p with
    | .error e => .error e
    | .ok repl =>
      if v = [] then
        .error (match e3, e2 with
          | none, _ => .nameErr
          | some _, none => .nameErr
          | some c, some r => .badProdChar c r v)
      else
        if repl = [] then
          .error (match e3 with
            | none => .nameErr
            | some c => .badProdChar c repl v)
        else
          match scanRepl vars v repl repl e3 with
          | .error e => .error e
          | .ok e3' => checkC vars rest (some repl) e3'

/-- Lines 116-127: the three validation checks, in order. -/
def validate (ax : List Char) (vars : Vars) : Except Err Unit := do
  checkA vars
  checkB ax vars
  checkC vars vars none none

/-- The spec's notion of a valid grammar (section 3 invariants): every key a
single uppercase letter, every axiom character in the alphabet, every
production non-empty with every character in the alphabet. -/
def grammarOkSpec (ax : List Char) (vars : Vars) : Bool :=
  vars.all (fun kv => isValidKey kv.1) &&
  ax.all (validChar vars) &&
  vars.all (fun kv => ! (replOf kv.2).isEmpty && (replOf kv.2).all (validChar vars))

/-- Whether an `Err` is one of the spec's `GrammarError`s (its section-7
taxonomy); the incidental `NameError` and `IndexError` are not. -/
def isGrammarError : Err → Bool
  | .nameErr => false
  | .indexErr => false
  | _ => true

/-- The parameters that the Python recursion passes down unchanged to every
nested call (lines 269-273): the abstracted trig function, the variables,
the angle, the (already scaled) step length, the `__no_draw` and
`__static_color` flags and the frozen `__extrem_cords` box. -/
structure Ctx where
  dir : ℚ → Cord
  vars : Vars
  angle : ℚ
  step : ℚ
  noDraw : Bool
  static : Bool
  extrem : Option (Cord × Cord)

instance {ε α : Type} [DecidableEq ε] [DecidableEq α] : DecidableEq (Except ε α)
  | .error e, .error f =>
    if h : e = f then .isTrue (by rw [h]) else .isFalse (fun hh => h (Except.error.inj hh))
  | .error _, .ok _ => .isFalse (fun hh => Except.noConfusion hh)
  | .ok _, .error _ => .isFalse (fun hh => Except.noConfusion hh)
  | .ok a, .ok b =>
    if h : a = b then .isTrue (by rw [h]) else .isFalse (fun hh => h (Except.ok.inj hh))

/-- Result of one invocation: the renderer events it performed, the `warn`
calls it made (each carrying the axiom string of the emitting level, line
296), and either the escaping exception or the returned
`(turtle-state, min-cord, max-cord)`. -/
structure Out where
  evs : List Ev
  warns : List (List Char)
  res : Except Err (TState × Cord × Cord)
deriving Repr, DecidableEq

/-- Prepend already-performed events to an invocation result. -/
def Out.pre (l : List Ev) (o : Out) : Out := { o with evs := l ++ o.evs }

/-- Result of handling one variable character: events, warns, and on success
the new turtle state together with an optional `(min, max)` contribution to
the caller's running extremes (`none` when nothing is to be merged). -/
structure VOut where
  evs : List Ev
  warns : List (List Char)
  res : Except Err (TState × Option (Cord × Cord))

/-- Componentwise minimum of two coordinate pairs (lines 259 and 276). -/
def min2 (a b : Cord) : Cord := (min a.1 b.1, min a.2 b.2)

/-- Componentwise maximum of two coordinate pairs (lines 258 and 277). -/
def max2 (a b : Cord) : Cord := (max a.1 b.1, max a.2 b.2)

/-- `_turtle.forward(step_length)` (line 253): the position reached from
`st` along the current heading. -/
def fwd (ctx : Ctx) (st : TState) : Cord :=
  (st.pos.1 + ctx.step * (ctx.dir st.head).1, st.pos.2 + ctx.step * (ctx.dir st.head).2)

/-- `lindenmayer_systems.py:243`: iterate the variables in declaration order
with their index and return the first whose key matches the character,
resolved to `(replacement, draws-forward)` (line 245). -/
def lookupVarAux : Vars → ℕ → Char → Option (List Char × Bool)
  | [], _, _ => none
  | (k, p) :: rest, i, c => if k = [c] then some (replOf p, drawOf i p) else lookupVarAux rest (i + 1) c

/-- First matching variable of the dictionary for a character. -/
def lookupVar (vars : Vars) (c : Char) : Option (List Char × Bool) := lookupVarAux vars 0 c

/-- The `depth == 0` branch for a matched variable (lines 247-266): if the
variable draws, evaluate the colour callback (unless the colour is static or
drawing is suppressed, line 249), move forward, and contribute the new
position to the extremes; otherwise do nothing.  The screen-resize branch
(lines 261-266) touches only the screen and is not an event. -/
def varAct0 (ctx : Ctx) (_repl : List Char) (draw : Bool) (st : TState) : VOut :=
  if draw then
    let p := fwd ctx st
    { evs := (if !ctx.static && !ctx.noDraw then [Ev.colorOp] else []) ++ [Ev.forward ctx.step p],
      warns := [], res := .ok (⟨p, st.head⟩, some (p, p)) }
  else { evs := [], warns := [], res := .ok (st, none) }

/-- The `depth > 0` branch for a matched variable (lines 268-277): recurse
into the replacement with the same context (`sub`, which is the full nested
invocation including its line-218 `penup` when drawing is suppressed) and
contribute the returned extremes. -/
def varActS (ctx : Ctx) (sub : List Char → TState → Out) (repl : List Char) (_draw : Bool) (st : TState) : VOut :=
  let o := Out.pre (if ctx.noDraw then [Ev.penUp] else []) (sub repl st)
  match o.res with
  | .error e => { evs := o.evs, warns := o.warns, res := .error e }
  | .ok (st', mn, mx) => { evs := o.evs, warns := o.warns, res := .ok (st', some (mn, mx)) }

/-- Lines 255-259 and 274-277: merge a contribution (a depth-0 endpoint
taken twice, or a nested call's returned extremes) into the running
extremes, unless the box is already frozen (`__extrem_cords is not None`). -/
def mergeBox (contrib : Option (Cord × Cord)) (extrem : Option (Cord × Cord))
    (mn mx : Cord) : Cord × Cord :=
  match contrib, extrem with
  | some (a, b), none => (min2 mn a, max2 mx b)
  | _, _ => (mn, mx)

/-- The per-invocation character loop (lines 223-299): a fresh stored-states
stack and zero-initialised extremes per invocation, one pass over the axiom
enumerating indices, the unmatched-`[` warning at the end (line 292-296),
and the line-298 selection between the frozen and the accumulated extremes.
`va` is the variable handler (`varAct0` at depth 0, `varActS` above). -/
def loop (ctx : Ctx) (va : List Char → Bool → TState → VOut) (ax0 : List Char) :
    List Char → ℕ → TState → List (Cord × ℚ) → Cord → Cord → Out
  | [], _, st, stack, mn, mx =>
    { evs := [], warns := if stack.isEmpty then [] else [ax0],
      res := .ok (st, (ctx.extrem.getD (mn, mx)).1, (ctx.extrem.getD (mn, mx)).2) }
  | c :: rest, idx, st, stack, mn, mx =>
    if c = '[' then
      loop ctx va ax0 rest (idx + 1) st ((st.pos, st.head) :: stack) mn mx
    else if c = ']' then
      match stack with
      | [] => { evs := [], warns := [], res := .error (.unmatchedBracket idx) }
      | (p, h) :: stack' =>
        Out.pre ([Ev.penUp, Ev.goto p, Ev.setH h] ++ (if ctx.noDraw then [] else [Ev.penDown]))
          (loop ctx va ax0 rest (idx + 1) ⟨p, hmod h⟩ stack' mn mx)
    else if c = '+' then
      Out.pre [Ev.turnL ctx.angle]
        (loop ctx va ax0 rest (idx + 1) ⟨st.pos, hmod (st.head + ctx.angle)⟩ stack mn mx)
    else if c = '-' then
      Out.pre [Ev.turnR ctx.angle]
        (loop ctx va ax0 rest (idx + 1) ⟨st.pos, hmod (st.head - ctx.angle)⟩ stack mn mx)
    else if c.isUpper then
      match lookupVar ctx.vars c with
      | none => { evs := [], warns := [], res := .error (.unknownVar c) }
      | some (repl, draw) =>
        match va repl draw st with
        | ⟨evs1, w1, .error e⟩ => { evs := evs1, warns := w1, res := .error e }
        | ⟨evs1, w1, .ok (st', contrib)⟩ =>
          let mm : Cord × Cord := mergeBox contrib ctx.extrem mn mx
          let o := loop ctx va ax0 rest (idx + 1) st' stack mm.1 mm.2
          { evs := evs1 ++ o.evs, warns := w1 ++ o.warns, res := o.res }
    else { evs := [], warns := [], res := .error (.invalidChar c) }

/-- One invocation body at a given remaining depth: the loop with the
depth-appropriate variable handler (`Nat.rec` over the depth, mirroring the
`depth - 1` recursion of line 269). -/
def runAux (ctx : Ctx) : ℕ → List Char → TState → Out :=
  Nat.rec (motive := fun _ => List Char → TState → Out)
    (fun ax st => loop ctx (varAct0 ctx) ax ax 0 st [] (0, 0) (0, 0))
    (fun _ ih ax st => loop ctx (varActS ctx ih) ax ax 0 st [] (0, 0) (0, 0))

/-- A full (non-initial) invocation: the line-218 `penup` when drawing is
suppressed, then the character loop. -/
def runCall (ctx : Ctx) (d : ℕ) (ax : List Char) (st : TState) : Out :=
  Out.pre (if ctx.noDraw then [Ev.penUp] else []) (runAux ctx d ax st)

/-- The line-109-115 setup performed at the top of a top-level call, before
validation: optionally hide the turtle, set the heading so 0 is north, and
pen-up/goto/pen-down to the system centre. -/
def setupEvs (instantDraw : Bool) (ia : ℚ) (center : Cord) : List Ev :=
  (if instantDraw then [Ev.hide] else []) ++
    [Ev.setH (hmod (ia + 90)), Ev.penUp, Ev.goto center, Ev.penDown]

/-- `rnd_from_zero` (lines 184-195): round away from zero. -/
def rndFromZero (x : ℚ) : ℚ := if x < 0 then (Rat.floor x : ℚ) else (Rat.ceil x : ℚ)

/-- Python's `max(a, b, key=abs)`: the argument of larger absolute value,
first argument on ties, keeping its sign. -/
def maxByAbs (a b : ℚ) : ℚ := if |a| < |b| then b else a

/-- Python's `min(a, b, key=abs)`: the argument of smaller absolute value,
first argument on ties, keeping its sign. -/
def minByAbs (a b : ℚ) : ℚ := if |b| < |a| then b else a

/-- `[-1, 1][step_length > 0]` (line 177). -/
def sgnStep (step : ℚ) : ℚ := if step > 0 then 1 else -1

/-- The auto compression factor as the code computes it (lines 172-177) from
the dry-run extremes `mn`/`mx` and the window dimensions: signed
extreme-by-absolute-value coordinates divide the window dimensions, the
ratio of smaller magnitude is kept with its sign, scaled by 0.9 and negated
for a negative step length.  (Python raises `ZeroDivisionError` when an
extreme is 0; rational division by zero yields 0 here, and every theorem
using this assumes the extremes are non-zero.) -/
def autoFactor (mn mx : Cord) (W H step : ℚ) : ℚ :=
  minByAbs (W / maxByAbs mn.1 mx.1) (H / maxByAbs mn.2 mx.2) * (9 / 10) * sgnStep step

/-- The spec's formula for the auto factor:
`0.9 * min(viewportWidth/maxAbsX, viewportHeight/maxAbsY) * sign(stepLength)`
with `maxAbsX`/`maxAbsY` the largest absolute coordinates of the dry-run
bounding box. -/
def specAutoFactor (mn mx : Cord) (W H step : ℚ) : ℚ :=
  9 / 10 * min (W / max |mn.1| |mx.1|) (H / max |mn.2| |mx.2|) *
    (if step > 0 then 1 else if step < 0 then -1 else 0)

/-- Line 200: the adjusted starting position of the turtle for the real run. -/
def startPoint (mn mx : Cord) (factor : ℚ) : Cord :=
  (-(mn.1 + (mx.1 - mn.1) / 2) * factor, -(mn.2 + (mx.2 - mn.2) / 2) * factor)

/-- Lines 206-208: the frozen `__extrem_cords` derived from the starting
point (`(1 + (not i))` doubles the x component only). -/
def frozenBox (sp : Cord) : Cord × Cord :=
  ((rndFromZero (sp.1 * 2), rndFromZero sp.2), (-(rndFromZero (sp.1 * 2)), -(rndFromZero sp.2)))

/-- The top-level call `lindenmayer_system(...)` (everything an initial call
does, in source order): the `depth < 0` early return of lines 107-108; the
line-109-115 cursor setup; validation (lines 116-129); the static-colour
application (line 146); for `compression_factor='auto'` (`cf = none`) the
dry run on a fresh turtle with drawing suppressed and a black-on-black
palette (line 167-170), the factor/step/starting-point/frozen-box
computation (lines 172-208) and the pen-up/goto/pen-down repositioning
(lines 201-203); otherwise (`cf = some q`) the `step * q ^ depth` scaling of
line 214; then the main character loop.  `W`/`H` are the window dimensions
the screen reports at line 172; the dry run happens on a separate `Turtle()`
(line 167 passes `_turtle=None`), so its events are not part of this
turtle's trace, while its warnings are emitted. -/
def lindenmayer_system (dir : ℚ → Cord) (ax : List Char) (vars : Vars) (depth : ℤ)
    (angle : ℚ) (instantDraw : Bool) (fgStatic : Bool) (cf : Option ℚ) (step : ℚ)
    (W H : ℚ) (ia : ℚ) (center : Cord) (st0 : TState) : Out :=
  if depth < 0 then { evs := [], warns := [], res := .ok (st0, st0.pos, st0.pos) }
  else
    let h0 := hmod (ia + 90)
    let st1 : TState := ⟨center, h0⟩
    let pre := setupEvs instantDraw ia center
    match validate ax vars with
    | .error e => { evs := pre, warns := [], res := .error e }
    | .ok _ =>
      if step = 0 ∨ cf = some 0 then { evs := pre, warns := [], res := .error .assertErr }
      else
        let colorEvs := if fgStatic then [Ev.colorOp] else []
        match cf with
        | none =>
          let dctx : Ctx := ⟨dir, vars, angle, step, true, true, none⟩
          let dry := runCall dctx depth.toNat ax st1
          match dry.res with
          | .error e => { evs := pre ++ colorEvs, warns := dry.warns, res := .error e }
          | .ok (_, mn, mx) =>
            let factor := autoFactor mn mx W H step
            let sp := startPoint mn mx factor
            let mctx : Ctx := ⟨dir, vars, angle, step * factor, false, fgStatic, some (frozenBox sp)⟩
            let main := runCall mctx depth.toNat ax ⟨sp, h0⟩
            { evs := pre ++ colorEvs ++ [Ev.penUp, Ev.goto sp, Ev.penDown] ++ main.evs,
              warns := dry.warns ++ main.warns, res := main.res }
        | some q =>
          let mctx : Ctx := ⟨dir, vars, angle, step * q ^ depth.toNat, false, fgStatic, none⟩
          let main := runCall mctx depth.toNat ax st1
          { evs := pre ++ colorEvs ++ main.evs, warns := main.warns, res := main.res }

/-- The forward-movement endpoints recorded in a trace, in order. -/
def fwdEnds : List Ev → List Cord
  | [] => []
  | Ev.forward _ p :: rest => p :: fwdEnds rest
  | _ :: rest => fwdEnds rest

/-- Number of forward movements in a trace. -/
def numFwd (l : List Ev) : ℕ := (fwdEnds l).length

/-- Distance of the first forward movement in a trace, if any. -/
def firstFwdDist : List Ev → Option ℚ
  | [] => none
  | Ev.forward d _ :: _ => some d
  | _ :: rest => firstFwdDist rest

/-- The turtle state returned by an invocation, if it succeeded. -/
def finalSt (o : Out) : Option TState :=
  match o.res with
  | .ok (st, _, _) => some st
  | .error _ => none

/-- Exact direction vectors for headings that are multiples of 90 degrees
(elsewhere arbitrary): the concrete instantiation of the abstract trig
parameter used by witnesses and counterexamples. -/
def unitDir90 (h : ℚ) : Cord :=
  if h = 0 then (1, 0)
  else if h = 90 then (0, 1)
  else if h = 180 then (-1, 0)
  else if h = 270 then (0, -1)
  else (0, 0)

/-- One parallel substitution step: each variable character is replaced by
its replacement, other characters are kept. -/
def subst1 (vars : Vars) : List Char → List Char
  | [] => []
  | c :: rest =>
    (if c.isUpper then
      match lookupVar vars c with
      | some (repl, _) => repl
      | none => [c]
    else [c]) ++ subst1 vars rest

/-- Bracket simulator for a single invocation level: given the current stack
size and index, the index of the first `]` meeting an empty stack, if any
(characters other than `[`/`]` are skipped). -/
def simBal : List Char → ℕ → ℕ → Option ℕ
  | [], _, _ => none
  | c :: rest, s, i =>
    if c = '[' then simBal rest (s + 1) (i + 1)
    else if c = ']' then
      (match s with
       | 0 => some i
       | s' + 1 => simBal rest s' (i + 1))
    else simBal rest s (i + 1)

/-- Bracket simulator: the stack size left at the end of one level. -/
def simSz : List Char → ℕ → ℕ
  | [], s => s
  | c :: rest, s =>
    if c = '[' then simSz rest (s + 1)
    else if c = ']' then simSz rest (s - 1)
    else simSz rest s

/-- The number of forward-drawing symbols visited at depth 0: the characters
resolving to a variable whose draws-forward flag is set (the line-248
`draw` test). -/
def dcount (vars : Vars) : List Char → ℕ
  | [] => 0
  | c :: rest =>
    (if c.isUpper then
      match lookupVar vars c with
      | some (_, draw) => if draw then 1 else 0
      | none => 0
    else 0) + dcount vars rest

/-- Sum, over the variable characters of a string, of a function of their
replacements (the shape of the line-269 recursion). -/
def csum (vars : Vars) (f : List Char → ℕ) : List Char → ℕ
  | [] => 0
  | c :: rest =>
    (if c.isUpper then
      match lookupVar vars c with
      | some (repl, _) => f repl
      | none => 0
    else 0) + csum vars f rest

/-- The number of forward-drawing symbols visited when expanding a string to
a given depth, following the interpreter's recursion: at depth 0 the
draws-forward occurrences themselves, at depth `d+1` the visits inside each
variable's replacement at depth `d`. -/
def countDraws (vars : Vars) (d : ℕ) : List Char → ℕ :=
  Nat.rec (dcount vars) (fun _ ih => csum vars ih) d

/-- The number of characters of a string that resolve to a declared
variable. -/
def nvarsIn (vars : Vars) : List Char → ℕ := csum vars (fun _ => 1)

/-- Hypothesis for monotone expansion: every production contains strictly
more draws-forward occurrences than the variable it replaces accounts for
itself (at least one for a non-drawing variable, at least two for a drawing
one). -/
def prodGrows (vars : Vars) : Vars → ℕ → Bool
  | [], _ => true
  | (_, p) :: rest, i =>
    ((if drawOf i p then 1 else 0) + 1 ≤ dcount vars (replOf p) : Bool) && prodGrows vars rest (i + 1)

/-- The spec's hypothesis for monotone expansion: substitution strictly
increases string length, i.e. every production is longer than one
character. -/
def specIncreasing (vars : Vars) : Bool := vars.all (fun kv => 1 < (replOf kv.2).length)

/-- The minimal axis-aligned rectangle containing a non-empty list of
points, as the spec describes the bounding box. -/
def specBox : List Cord → Option (Cord × Cord)
  | [] => none
  | p :: rest => some (rest.foldl (fun acc q => (min2 acc.1 q, max2 acc.2 q)) (p, p))

/-- Sum, over the characters of a string that resolve to a variable, of a
function of the resolved `(replacement, draws-forward)` pair. -/
def gsum (vars : Vars) (g : List Char → Bool → ℕ) : List Char → ℕ
  | [] => 0
  | c :: rest =>
    (if c.isUpper then
      match lookupVar vars c with
      | some (repl, dr) => g repl dr
      | none => 0
    else 0) + gsum vars g rest

/-- Componentwise order on coordinate pairs. -/
def cle (a b : Cord) : Prop := a.1 ≤ b.1 ∧ a.2 ≤ b.2

/-- Whether an `Except` result is a success. -/
def isOkE {α : Type} (r : Except Err α) : Bool :=
  match r with
  | .ok _ => true
  | .error _ => false

/-- Whether an invocation completed without an exception. -/
def resOk (o : Out) : Bool := isOkE o.res

/-- Whether a variable-handler result completed without an exception. -/
def vresOk (v : VOut) : Bool := isOkE v.res

@[simp]
lemma Out.pre_evs (l : List Ev) (o : Out) : (Out.pre l o).evs = l ++ o.evs := rfl

@[simp]
lemma Out.pre_warns (l : List Ev) (o : Out) : (Out.pre l o).warns = o.warns := rfl

@[simp]
lemma Out.pre_res (l : List Ev) (o : Out) : (Out.pre l o).res = o.res := rfl

@[simp]
lemma resOk_pre (l : List Ev) (o : Out) : resOk (Out.pre l o) = resOk o := rfl

@[simp]
lemma resOk_mk (evs : List Ev) (w : List (List Char)) (r : Except Err (TState × Cord × Cord)) :
    resOk ⟨evs, w, r⟩ = isOkE r := rfl

@[simp]
lemma isOkE_ok {α : Type} (x : α) : isOkE (Except.ok x) = true := rfl

@[simp]
lemma isOkE_error {α : Type} (e : Err) : isOkE (Except.error e : Except Err α) = false := rfl

lemma loop_nil (ctx : Ctx) (va : List Char → Bool → TState → VOut) (ax0 : List Char)
    (idx : ℕ) (st : TState) (stack : List (Cord × ℚ)) (mn mx : Cord) :
    loop ctx va ax0 [] idx st stack mn mx =
      ⟨[], if stack.isEmpty then [] else [ax0],
       .ok (st, (ctx.extrem.getD (mn, mx)).1, (ctx.extrem.getD (mn, mx)).2)⟩ := rfl

lemma loop_lbr (ctx : Ctx) (va : List Char → Bool → TState → VOut) (ax0 rest : List Char)
    (idx : ℕ) (st : TState) (stack : List (Cord × ℚ)) (mn mx : Cord) :
    loop ctx va ax0 ('[' :: rest) idx st stack mn mx =
      loop ctx va ax0 rest (idx + 1) st ((st.pos, st.head) :: stack) mn mx := rfl

lemma loop_rbr_nil (ctx : Ctx) (va : List Char → Bool → TState → VOut) (ax0 rest : List Char)
    (idx : ℕ) (st : TState) (mn mx : Cord) :
    loop ctx va ax0 (']' :: rest) idx st [] mn mx =
      ⟨[], [], .error (.unmatchedBracket idx)⟩ := rfl

lemma loop_rbr_cons (ctx : Ctx) (va : List Char → Bool → TState → VOut) (ax0 rest : List Char)
    (idx : ℕ) (st : TState) (p : Cord) (h : ℚ) (stack : List (Cord × ℚ)) (mn mx : Cord) :
    loop ctx va ax0 (']' :: rest) idx st ((p, h) :: stack) mn mx =
      Out.pre ([Ev.penUp, Ev.goto p, Ev.setH h] ++ (if ctx.noDraw then [] else [Ev.penDown]))
        (loop ctx va ax0 rest (idx + 1) ⟨p, hmod h⟩ stack mn mx) := rfl

lemma loop_plus (ctx : Ctx) (va : List Char → Bool → TState → VOut) (ax0 rest : List Char)
    (idx : ℕ) (st : TState) (stack : List (Cord × ℚ)) (mn mx : Cord) :
    loop ctx va ax0 ('+' :: rest) idx st stack mn mx =
      Out.pre [Ev.turnL ctx.angle]
        (loop ctx va ax0 rest (idx + 1) ⟨st.pos, hmod (st.head + ctx.angle)⟩ stack mn mx) := rfl

lemma loop_minus (ctx : Ctx) (va : List Char → Bool → TState → VOut) (ax0 rest : List Char)
    (idx : ℕ) (st : TState) (stack : List (Cord × ℚ)) (mn mx : Cord) :
    loop ctx va ax0 ('-' :: rest) idx st stack mn mx =
      Out.pre [Ev.turnR ctx.angle]
        (loop ctx va ax0 rest (idx + 1) ⟨st.pos, hmod (st.head - ctx.angle)⟩ stack mn mx) := rfl

lemma loop_upper_none (ctx : Ctx) (va : List Char → Bool → TState → VOut) (ax0 rest : List Char)
    (idx : ℕ) (st : TState) (stack : List (Cord × ℚ)) (mn mx : Cord) (c : Char)
    (hc : c.isUpper = true) (h1 : c ≠ '[') (h2 : c ≠ ']') (h3 : c ≠ '+') (h4 : c ≠ '-')
    (hl : lookupVar ctx.vars c = none) :
    loop ctx va ax0 (c :: rest) idx st stack mn mx = ⟨[], [], .error (.unknownVar c)⟩ := by
  simp [loop, h1, h2, h3, h4, hc, hl]

lemma loop_upper_err (ctx : Ctx) (va : List Char → Bool → TState → VOut) (ax0 rest : List Char)
    (idx : ℕ) (st : TState) (stack : List (Cord × ℚ)) (mn mx : Cord) (c : Char)
    (repl : List Char) (dr : Bool) (evs1 : List Ev) (w1 : List (List Char)) (e : Err)
    (hc : c.isUpper = true) (h1 : c ≠ '[') (h2 : c ≠ ']') (h3 : c ≠ '+') (h4 : c ≠ '-')
    (hl : lookupVar ctx.vars c = some (repl, dr)) (hv : va repl dr st = ⟨evs1, w1, .error e⟩) :
    loop ctx va ax0 (c :: rest) idx st stack mn mx = ⟨evs1, w1, .error e⟩ := by
  simp [loop, h1, h2, h3, h4, hc, hl, hv]

lemma loop_upper_ok (ctx : Ctx) (va : List Char → Bool → TState → VOut) (ax0 rest : List Char)
    (idx : ℕ) (st : TState) (stack : List (Cord × ℚ)) (mn mx : Cord) (c : Char)
    (repl : List Char) (dr : Bool) (evs1 : List Ev) (w1 : List (List Char)) (st' : TState)
    (contrib : Option (Cord × Cord))
    (hc : c.isUpper = true) (h1 : c ≠ '[') (h2 : c ≠ ']') (h3 : c ≠ '+') (h4 : c ≠ '-')
    (hl : lookupVar ctx.vars c = some (repl, dr))
    (hv : va repl dr st = ⟨evs1, w1, .ok (st', contrib)⟩) :
    loop ctx va ax0 (c :: rest) idx st stack mn mx =
      ⟨evs1 ++ (loop ctx va ax0 rest (idx + 1) st' stack
          (mergeBox contrib ctx.extrem mn mx).1 (mergeBox contrib ctx.extrem mn mx).2).evs,
       w1 ++ (loop ctx va ax0 rest (idx + 1) st' stack
          (mergeBox contrib ctx.extrem mn mx).1 (mergeBox contrib ctx.extrem mn mx).2).warns,
       (loop ctx va ax0 rest (idx + 1) st' stack
          (mergeBox contrib ctx.extrem mn mx).1 (mergeBox contrib ctx.extrem mn mx).2).res⟩ := by
  simp [loop, h1, h2, h3, h4, hc, hl, hv]

lemma loop_invalid (ctx : Ctx) (va : List Char → Bool → TState → VOut) (ax0 rest : List Char)
    (idx : ℕ) (st : TState) (stack : List (Cord × ℚ)) (mn mx : Cord) (c : Char)
    (hc : ¬ c.isUpper = true) (h1 : c ≠ '[') (h2 : c ≠ ']') (h3 : c ≠ '+') (h4 : c ≠ '-') :
    loop ctx va ax0 (c :: rest) idx st stack mn mx = ⟨[], [], .error (.invalidChar c)⟩ := by
  simp [loop, h1, h2, h3, h4, hc]

@[simp]
lemma runAux_zero (ctx : Ctx) (ax : List Char) (st : TState) :
    runAux ctx 0 ax st = loop ctx (varAct0 ctx) ax ax 0 st [] (0, 0) (0, 0) := rfl

@[simp]
lemma runAux_succ (ctx : Ctx) (d : ℕ) (ax : List Char) (st : TState) :
    runAux ctx (d + 1) ax st = loop ctx (varActS ctx (runAux ctx d)) ax ax 0 st [] (0, 0) (0, 0) := rfl

lemma ratFloor_eq (q : ℚ) : Rat.floor q = ⌊q⌋ := (Rat.floor_def' q).trans Rat.floor_def.symm

lemma hmod_floor (x : ℚ) : hmod x = x - 360 * (⌊x / 360⌋ : ℤ) := by
  unfold hmod
  rw [ratFloor_eq]

lemma hmod_sub_intMul (x : ℚ) (n : ℤ) : hmod (x - 360 * n) = hmod x := by
  rw [hmod_floor, hmod_floor]
  have h : (x - 360 * n) / 360 = x / 360 - n := by ring
  rw [h, Int.floor_sub_int]
  push_cast
  ring

lemma hmod_hmod (x : ℚ) : hmod (hmod x) = hmod x := by
  calc hmod (hmod x) = hmod (x - 360 * (⌊x / 360⌋ : ℤ)) := by rw [← hmod_floor]
    _ = hmod x := hmod_sub_intMul x _

/-- Claim C10: calling `lindenmayer_system` with `depth < 0` — even as the
initial, top-level call — returns immediately with the current cursor
position as both bounding-box corners, performing no grammar validation, no
drawing, and raising no error (lines 107-108 return before the setup of
line 109 and the validation of lines 116-129). -/
theorem C10_thm (dir : ℚ → Cord) (ax : List Char) (vars : Vars) (depth : ℤ)
    (angle : ℚ) (instantDraw fgStatic : Bool) (cf : Option ℚ) (step W H ia : ℚ)
    (center : Cord) (st0 : TState) (h : depth < 0) :
    lindenmayer_system dir ax vars depth angle instantDraw fgStatic cf step W H ia center st0 =
      ⟨[], [], .ok (st0, st0.pos, st0.pos)⟩ := by
  unfold lindenmayer_system
  rw [if_pos h]

/-- Witness for C10: at `depth = -1` with a grammar that would fail every
validation check, the call still returns `(pos, pos)` with no events, no
warnings and no error. -/
theorem C10_w :
    lindenmayer_system unitDir90 ['f'] [([], Production.plain [])] (-1) 90 true true (some 0) 0
      100 100 0 (0, 0) ⟨(3, 4), 7⟩ = ⟨[], [], .ok (⟨(3, 4), 7⟩, (3, 4), (3, 4))⟩ :=
  C10_thm unitDir90 ['f'] [([], Production.plain [])] (-1) 90 true true (some 0) 0
    100 100 0 (0, 0) ⟨(3, 4), 7⟩ (by decide)

/-- Claim C4, amended: on a top-level call with a grammar that fails
validation, the `GrammarError` is raised after the cursor setup of lines
109-115 (hide, heading set, pen-up, move to the system centre, pen-down)
but before any drawing: the event trace of the failing call is exactly the
setup trace, which contains no forward movement and no colour operation. -/
theorem C4_amended_thm (dir : ℚ → Cord) (ax : List Char) (vars : Vars) (depth : ℤ)
    (angle : ℚ) (instantDraw fgStatic : Bool) (cf : Option ℚ) (step W H ia : ℚ)
    (center : Cord) (st0 : TState) (e : Err) (hd : 0 ≤ depth)
    (hv : validate ax vars = .error e) :
    lindenmayer_system dir ax vars depth angle instantDraw fgStatic cf step W H ia center st0 =
      ⟨setupEvs instantDraw ia center, [], .error e⟩ ∧
    (∀ d p, Ev.forward d p ∉ setupEvs instantDraw ia center) ∧
    Ev.colorOp ∉ setupEvs instantDraw ia center := by
  refine ⟨?_, ?_, ?_⟩
  · have hneg : ¬ depth < 0 := by omega
    unfold lindenmayer_system
    rw [if_neg hneg, hv]
  · intro d p
    cases instantDraw <;> simp [setupEvs]
  · cases instantDraw <;> simp [setupEvs]

/-- Witness for C4: concrete invalid axiom character `'f'`, concrete setup
trace. -/
theorem C4_w :
    lindenmayer_system unitDir90 ['f'] [(['F'], Production.plain ['F'])] 0 90 true true (some 1)
      10 100 100 0 (0, 0) ⟨(0, 0), 0⟩ = ⟨setupEvs true 0 (0, 0), [], .error (.badAxiomChar 'f')⟩ :=
  (C4_amended_thm unitDir90 ['f'] [(['F'], Production.plain ['F'])] 0 90 true true (some 1)
    10 100 100 0 (0, 0) ⟨(0, 0), 0⟩ (.badAxiomChar 'f') (by decide) (by decide)).1

/-- Counterexample to C4 as stated: for an invalid grammar the
`GrammarError` is raised only after the renderer has already been mutated —
the trace before the error contains a heading change, a cursor movement and
pen-state changes. -/
theorem C4_cex :
    (lindenmayer_system unitDir90 ['f'] [(['F'], Production.plain ['F'])] 0 90 false true (some 1)
        10 100 100 0 (7, 7) ⟨(0, 0), 0⟩).res = .error (.badAxiomChar 'f') ∧
    Ev.setH 90 ∈ (lindenmayer_system unitDir90 ['f'] [(['F'], Production.plain ['F'])] 0 90 false
        true (some 1) 10 100 100 0 (7, 7) ⟨(0, 0), 0⟩).evs ∧
    Ev.goto (7, 7) ∈ (lindenmayer_system unitDir90 ['f'] [(['F'], Production.plain ['F'])] 0 90
        false true (some 1) 10 100 100 0 (7, 7) ⟨(0, 0), 0⟩).evs ∧
    Ev.penDown ∈ (lindenmayer_system unitDir90 ['f'] [(['F'], Production.plain ['F'])] 0 90 false
        true (some 1) 10 100 100 0 (7, 7) ⟨(0, 0), 0⟩).evs := by
  decide

/-- Claim C5: a `]` meeting an empty stored-states stack is a fatal error
carrying the character's index (concretely, axiom `"F]"` fails citing index
1); a `]` meeting a non-empty stack pops it, restores the saved position and
heading, and puts the pen down unless drawing is suppressed. -/
theorem C5_thm :
    ((lindenmayer_system unitDir90 ['F', ']'] [(['F'], Production.plain ['F'])] 0 90 true true
        (some 1) 10 100 100 0 (0, 0) ⟨(0, 0), 0⟩).res = .error (.unmatchedBracket 1)) ∧
    (∀ (ctx : Ctx) (va : List Char → Bool → TState → VOut) (ax0 rest : List Char) (idx : ℕ)
        (st : TState) (mn mx : Cord),
      loop ctx va ax0 (']' :: rest) idx st [] mn mx = ⟨[], [], .error (.unmatchedBracket idx)⟩) ∧
    (∀ (ctx : Ctx) (va : List Char → Bool → TState → VOut) (ax0 rest : List Char) (idx : ℕ)
        (st : TState) (p : Cord) (h : ℚ) (s : List (Cord × ℚ)) (mn mx : Cord),
      loop ctx va ax0 (']' :: rest) idx st ((p, h) :: s) mn mx =
        Out.pre ([Ev.penUp, Ev.goto p, Ev.setH h] ++ (if ctx.noDraw then [] else [Ev.penDown]))
          (loop ctx va ax0 rest (idx + 1) ⟨p, hmod h⟩ s mn mx)) :=
  ⟨by decide, fun _ _ _ _ _ _ _ _ => rfl, fun _ _ _ _ _ _ _ _ _ _ _ => rfl⟩

/-- Counterexample to C1 as stated: grammars with an empty production are
invalid, yet validation does not raise a `GrammarError` naming an offending
character.  A plain-string empty production (`F ↦ ""`) raises an
`IndexError` — the line-125 list display `[i[0], i]` evaluates `''[0]`
eagerly, before the item's checks; a tuple production with an empty
replacement (`F ↦ ("", True)`) reaches the line-126 raise, whose f-string
interpolates the never-assigned `e3` and so raises a `NameError`. -/
theorem C1_cex :
    grammarOkSpec ['F'] [(['F'], Production.plain [])] = false ∧
    validate ['F'] [(['F'], Production.plain [])] = .error .indexErr ∧
    isGrammarError .indexErr = false ∧
    grammarOkSpec ['F'] [(['F'], Production.pair [] true)] = false ∧
    validate ['F'] [(['F'], Production.pair [] true)] = .error .nameErr ∧
    isGrammarError .nameErr = false := by
  decide

/-- Counterexample to C2 as stated: with axiom `"[X"`, `X ↦ ("]", no-draw)`
and depth 1, the whole invocation's expansion `"[]"` is balanced — the `[`
pushed at the top level is still unmatched when the nested level meets `]` —
yet the code aborts with an unmatched-bracket error at index 0 of the nested
axiom, because each recursion level has its own fresh stack. -/
theorem C2_cex :
    (lindenmayer_system unitDir90 ['[', 'X'] [(['X'], Production.pair [']'] false)] 1 90 true true
        (some 1) 10 100 100 0 (0, 0) ⟨(0, 0), 0⟩).res = .error (.unmatchedBracket 0) ∧
    simBal (subst1 [(['X'], Production.pair [']'] false)] ['[', 'X']) 0 0 = none ∧
    simSz (subst1 [(['X'], Production.pair [']'] false)] ['[', 'X']) 0 = 0 := by
  decide

/-- Claim C3, amended: processing `"F[+F]-F"` at depth 0 with step 10 and
angle 90 performs exactly: forward, push, turn left 90, forward, pop/restore
(pen-up, reposition, re-set heading, pen-down), turn right 90, forward; the
final position is the initial position plus the vector sum of only the two
un-bracketed forward segments, and the final heading is the initial heading
rotated right by 90 degrees (not the initial heading itself). -/
theorem C3_amended_thm (dir : ℚ → Cord) (p0 : Cord) (h : ℚ) :
    let ctx : Ctx := ⟨dir, [(['F'], Production.plain ['F'])], 90, 10, false, true, none⟩
    let p1 : Cord := (p0.1 + 10 * (dir h).1, p0.2 + 10 * (dir h).2)
    let p2 : Cord := (p1.1 + 10 * (dir (hmod (h + 90))).1, p1.2 + 10 * (dir (hmod (h + 90))).2)
    let p3 : Cord := (p1.1 + 10 * (dir (hmod (hmod h - 90))).1,
                      p1.2 + 10 * (dir (hmod (hmod h - 90))).2)
    finalSt (runCall ctx 0 ['F', '[', '+', 'F', ']', '-', 'F'] ⟨p0, h⟩) =
        some ⟨p3, hmod (hmod h - 90)⟩ ∧
    (runCall ctx 0 ['F', '[', '+', 'F', ']', '-', 'F'] ⟨p0, h⟩).evs =
      [Ev.forward 10 p1, Ev.turnL 90, Ev.forward 10 p2,
       Ev.penUp, Ev.goto p1, Ev.setH h, Ev.penDown, Ev.turnR 90, Ev.forward 10 p3] :=
  ⟨rfl, rfl⟩

/-- Counterexample to C3 as stated: in the full call with initial angle 0
the cursor starts the axiom at heading 90 and ends it at heading 0 — the
final heading does not equal the initial heading (it is turned right by
90), though the final position is indeed the start plus the two un-bracketed
segments. -/
theorem C3_cex :
    finalSt (lindenmayer_system unitDir90 ['F', '[', '+', 'F', ']', '-', 'F']
        [(['F'], Production.plain ['F'])] 0 90 true true (some 1) 10 100 100 0 (0, 0)
        ⟨(0, 0), 0⟩) = some ⟨(10, 10), 0⟩ ∧
    hmod (0 + 90) = 90 ∧ (0 : ℚ) ≠ 90 := by
  decide

set_option maxRecDepth 40000 in
/-- Counterexample to C6 as stated: a drawing lying in the negative
quadrant.  The dry run of `"--F-F"` (depth 0, step 10, start heading 90)
has bounding box `(-10,-10)`/`(0,0)`; the code's factor is `-9` (the
`key=abs` extremes keep their signs) while the spec's formula
`0.9 * min(W/maxAbsX, H/maxAbsY) * sign(step)` gives `+9`; the real run then
moves forward by `-90`, not by the spec's `10 * 9 = 90`. -/
theorem C6_cex :
    (runCall ⟨unitDir90, [(['F'], Production.plain ['F'])], 90, 10, true, true, none⟩ 0
        ['-', '-', 'F', '-', 'F'] ⟨(0, 0), 90⟩).res =
      .ok (⟨(-10, -10), 180⟩, (-10, -10), (0, 0)) ∧
    autoFactor (-10, -10) (0, 0) 100 100 10 = -9 ∧
    specAutoFactor (-10, -10) (0, 0) 100 100 10 = 9 ∧
    firstFwdDist (lindenmayer_system unitDir90 ['-', '-', 'F', '-', 'F']
        [(['F'], Production.plain ['F'])] 0 90 true true none 10 100 100 0 (0, 0)
        ⟨(0, 0), 0⟩).evs = some (-90) ∧
    (10 : ℚ) * specAutoFactor (-10, -10) (0, 0) 100 100 10 = 90 ∧ (-90 : ℚ) ≠ 90 := by
  decide

/-- Counterexample to C7 as stated: drawing a single step from centre
`(5,5)` reaches only the endpoint `(5,15)`, whose minimal axis-aligned
rectangle is `(5,15)`/`(5,15)`; the call returns `(0,0)`/`(5,15)` instead,
because the running extremes are initialised to the origin. -/
theorem C7_cex :
    (lindenmayer_system unitDir90 ['F'] [(['F'], Production.plain ['F'])] 0 90 true true (some 1)
        10 100 100 0 (5, 5) ⟨(0, 0), 0⟩).res = .ok (⟨(5, 15), 90⟩, (0, 0), (5, 15)) ∧
    fwdEnds (lindenmayer_system unitDir90 ['F'] [(['F'], Production.plain ['F'])] 0 90 true true
        (some 1) 10 100 100 0 (5, 5) ⟨(0, 0), 0⟩).evs = [(5, 15)] ∧
    specBox [(5, 15)] = some ((5, 15), (5, 15)) ∧
    ((0 : ℚ), (0 : ℚ)) ≠ ((5 : ℚ), (15 : ℚ)) := by
  decide

/-- Counterexample to C9 as stated: the production `F ↦ "++"` strictly
increases string length under substitution, yet depth 1 visits 0
forward-drawing symbols where depth 0 visits 1 — strictly fewer, both by the
count and in the actual runs. -/
theorem C9_cex :
    specIncreasing [(['F'], Production.plain ['+', '+'])] = true ∧
    countDraws [(['F'], Production.plain ['+', '+'])] 0 ['F'] = 1 ∧
    countDraws [(['F'], Production.plain ['+', '+'])] 1 ['F'] = 0 ∧
    numFwd (runCall ⟨unitDir90, [(['F'], Production.plain ['+', '+'])], 90, 10, false, true, none⟩
        0 ['F'] ⟨(0, 0), 90⟩).evs = 1 ∧
    numFwd (runCall ⟨unitDir90, [(['F'], Production.plain ['+', '+'])], 90, 10, false, true, none⟩
        1 ['F'] ⟨(0, 0), 90⟩).evs = 0 ∧
    ¬ countDraws [(['F'], Production.plain ['+', '+'])] 0 ['F'] <
        countDraws [(['F'], Production.plain ['+', '+'])] 1 ['F'] := by
  decide

lemma lookupVarAux_append (c : Char) (p : Production) (post : Vars) :
    ∀ (pre : Vars) (i : ℕ), (∀ kv ∈ pre, kv.1 ≠ [c]) →
      lookupVarAux (pre ++ ([c], p) :: post) i c = some (replOf p, drawOf (i + pre.length) p) := by
  intro pre
  induction pre with
  | nil => intro i _; simp [lookupVarAux]
  | cons kv pre ih =>
    intro i h
    obtain ⟨k, q⟩ := kv
    have hk : k ≠ [c] := by simpa using h (k, q) (by simp)
    have step : lookupVarAux (((k, q) :: pre) ++ ([c], p) :: post) i c =
        lookupVarAux (pre ++ ([c], p) :: post) (i + 1) c := by
      show (if k = [c] then some (replOf q, drawOf i q)
            else lookupVarAux (pre ++ ([c], p) :: post) (i + 1) c) = _
      rw [if_neg hk]
    rw [step, ih (i + 1) (fun kv hm => h kv (by simp [hm]))]
    have harith : i + 1 + pre.length = i + ((k, q) :: pre).length := by
      simp [List.length_cons]
      omega
    rw [harith]

/-- Claim C8: a variable looked up in the dictionary resolves to its
replacement with the draws-forward flag of line 245 — for a plain-string
production the flag is true iff the variable is the first-declared one
(`var_index == 0`), and for an explicit pair the declared flag is used
regardless of position. -/
theorem C8_thm (pre post : Vars) (c : Char) (p : Production)
    (hpre : ∀ kv ∈ pre, kv.1 ≠ [c]) :
    lookupVar (pre ++ ([c], p) :: post) c = some (replOf p, drawOf pre.length p) ∧
    (∀ s : List Char, drawOf pre.length (Production.plain s) = true ↔ pre = []) ∧
    (∀ (s : List Char) (b : Bool), drawOf pre.length (Production.pair s b) = b) := by
  refine ⟨?_, ?_, ?_⟩
  · have h := lookupVarAux_append c p post pre 0 hpre
    simpa [lookupVar] using h
  · intro s
    simp [drawOf, List.length_eq_zero]
  · intro s b
    simp [drawOf]

/-- Witness for C8: with `G` declared first (explicit pair) and `F` second
(plain string), `F` resolves with draws-forward `false`. -/
theorem C8_w :
    lookupVar ([(['G'], Production.pair ['G'] true)] ++ (['F'], Production.plain ['F']) :: []) 'F' =
      some (replOf (Production.plain ['F']),
        drawOf (List.length [(['G'], Production.pair ['G'] true)]) (Production.plain ['F'])) :=
  (C8_thm [(['G'], Production.pair ['G'] true)] [] 'F' (Production.plain ['F']) (by decide)).1

@[simp] lemma fwdEnds_nil : fwdEnds [] = [] := rfl

@[simp] lemma fwdEnds_hide (l : List Ev) : fwdEnds (Ev.hide :: l) = fwdEnds l := rfl

@[simp] lemma fwdEnds_penUp (l : List Ev) : fwdEnds (Ev.penUp :: l) = fwdEnds l := rfl

@[simp] lemma fwdEnds_penDown (l : List Ev) : fwdEnds (Ev.penDown :: l) = fwdEnds l := rfl

@[simp] lemma fwdEnds_goto (p : Cord) (l : List Ev) : fwdEnds (Ev.goto p :: l) = fwdEnds l := rfl

@[simp] lemma fwdEnds_setH (h : ℚ) (l : List Ev) : fwdEnds (Ev.setH h :: l) = fwdEnds l := rfl

@[simp] lemma fwdEnds_turnL (a : ℚ) (l : List Ev) : fwdEnds (Ev.turnL a :: l) = fwdEnds l := rfl

@[simp] lemma fwdEnds_turnR (a : ℚ) (l : List Ev) : fwdEnds (Ev.turnR a :: l) = fwdEnds l := rfl

@[simp] lemma fwdEnds_colorOp (l : List Ev) : fwdEnds (Ev.colorOp :: l) = fwdEnds l := rfl

@[simp] lemma fwdEnds_forward (d : ℚ) (p : Cord) (l : List Ev) :
    fwdEnds (Ev.forward d p :: l) = p :: fwdEnds l := rfl

@[simp]
lemma fwdEnds_append (a b : List Ev) : fwdEnds (a ++ b) = fwdEnds a ++ fwdEnds b := by
  induction a with
  | nil => rfl
  | cons e a ih => cases e <;> simp [ih]

lemma numFwd_append (a b : List Ev) : numFwd (a ++ b) = numFwd a + numFwd b := by
  simp [numFwd]

lemma countDraws_zero (vars : Vars) : countDraws vars 0 = dcount vars := rfl

lemma countDraws_succ (vars : Vars) (d : ℕ) :
    countDraws vars (d + 1) = csum vars (countDraws vars d) := rfl

lemma dcount_eq_gsum (vars : Vars) (s : List Char) :
    dcount vars s = gsum vars (fun _ dr => if dr then 1 else 0) s := by
  induction s with
  | nil => rfl
  | cons c rest ih => simp only [dcount, gsum, ih]

lemma csum_eq_gsum (vars : Vars) (f : List Char → ℕ) (s : List Char) :
    csum vars f s = gsum vars (fun repl _ => f repl) s := by
  induction s with
  | nil => rfl
  | cons c rest ih => simp only [csum, gsum, ih]

lemma loop_numFwd (ctx : Ctx) (va : List Char → Bool → TState → VOut)
    (g : List Char → Bool → ℕ)
    (hva : ∀ repl dr st, vresOk (va repl dr st) = true → numFwd (va repl dr st).evs = g repl dr)
    (ax0 : List Char) :
    ∀ (rest : List Char) (idx : ℕ) (st : TState) (stack : List (Cord × ℚ)) (mn mx : Cord),
      resOk (loop ctx va ax0 rest idx st stack mn mx) = true →
      numFwd (loop ctx va ax0 rest idx st stack mn mx).evs = gsum ctx.vars g rest := by
  intro rest
  induction rest with
  | nil => intro idx st stack mn mx _; simp [loop_nil, numFwd, gsum]
  | cons c rest ih =>
    intro idx st stack mn mx hok
    by_cases h1 : c = '['
    · subst h1
      rw [loop_lbr] at hok ⊢
      rw [ih _ _ _ _ _ hok]
      simp [gsum]
    · by_cases h2 : c = ']'
      · subst h2
        match stack with
        | [] => rw [loop_rbr_nil] at hok; simp at hok
        | (p, h) :: stack' =>
          rw [loop_rbr_cons] at hok ⊢
          rw [resOk_pre] at hok
          rw [Out.pre_evs, numFwd_append, ih _ _ _ _ _ hok]
          rcases ctx.noDraw <;> simp [gsum, numFwd]
      · by_cases h3 : c = '+'
        · subst h3
          rw [loop_plus] at hok ⊢
          rw [resOk_pre] at hok
          rw [Out.pre_evs, numFwd_append, ih _ _ _ _ _ hok]
          simp [gsum, numFwd]
        · by_cases h4 : c = '-'
          · subst h4
            rw [loop_minus] at hok ⊢
            rw [resOk_pre] at hok
            rw [Out.pre_evs, numFwd_append, ih _ _ _ _ _ hok]
            simp [gsum, numFwd]
          · by_cases h5 : c.isUpper
            · cases hl : lookupVar ctx.vars c with
              | none =>
                rw [loop_upper_none ctx va ax0 rest idx st stack mn mx c h5 h1 h2 h3 h4 hl] at hok
                simp at hok
              | some rd =>
                obtain ⟨repl, dr⟩ := rd
                rcases hv : va repl dr st with ⟨evs1, w1, res1⟩
                cases res1 with
                | error e =>
                  rw [loop_upper_err ctx va ax0 rest idx st stack mn mx c repl dr evs1 w1 e
                    h5 h1 h2 h3 h4 hl hv] at hok
                  simp at hok
                | ok stc =>
                  obtain ⟨st', contrib⟩ := stc
                  rw [loop_upper_ok ctx va ax0 rest idx st stack mn mx c repl dr evs1 w1 st'
                    contrib h5 h1 h2 h3 h4 hl hv] at hok ⊢
                  rw [resOk_mk] at hok
                  have hok' : resOk (loop ctx va ax0 rest (idx + 1) st' stack
                      (mergeBox contrib ctx.extrem mn mx).1
                      (mergeBox contrib ctx.extrem mn mx).2) = true := hok
                  rw [numFwd_append, ih _ _ _ _ _ hok']
                  have hva1 := hva repl dr st (by simp [vresOk, hv])
                  rw [hv] at hva1
                  simp only at hva1
                  simp [gsum, h5, hl, hva1]
            · rw [loop_invalid ctx va ax0 rest idx st stack mn mx c h5 h1 h2 h3 h4] at hok
              simp at hok

lemma vresOk_mk (evs : List Ev) (w : List (List Char))
    (r : Except Err (TState × Option (Cord × Cord))) : vresOk ⟨evs, w, r⟩ = isOkE r := rfl

lemma varAct0_count (ctx : Ctx) (repl : List Char) (dr : Bool) (st : TState) :
    vresOk (varAct0 ctx repl dr st) = true →
    numFwd (varAct0 ctx repl dr st).evs = (if dr then 1 else 0) := by
  intro _
  by_cases hcol : (!ctx.static && !ctx.noDraw) = true <;>
    cases dr <;> simp [varAct0, numFwd, hcol]

lemma numFwd_runAux (ctx : Ctx) :
    ∀ (d : ℕ) (ax : List Char) (st : TState), resOk (runAux ctx d ax st) = true →
      numFwd (runAux ctx d ax st).evs = countDraws ctx.vars d ax := by
  intro d
  induction d with
  | zero =>
    intro ax st hok
    rw [runAux_zero] at hok ⊢
    rw [countDraws_zero, dcount_eq_gsum]
    exact loop_numFwd ctx (varAct0 ctx) _ (varAct0_count ctx) ax ax 0 st [] (0, 0) (0, 0) hok
  | succ d ih =>
    intro ax st hok
    rw [runAux_succ] at hok ⊢
    rw [countDraws_succ, csum_eq_gsum]
    refine loop_numFwd ctx (varActS ctx (runAux ctx d)) _ ?_ ax ax 0 st [] (0, 0) (0, 0) hok
    intro repl dr st2 hvok
    rcases hr : (runAux ctx d repl st2).res with e | trip
    · exfalso
      simp [varActS, vresOk_mk, hr] at hvok
    · have hok2 : resOk (runAux ctx d repl st2) = true := by simp [resOk, hr]
      have hcount := ih repl st2 hok2
      obtain ⟨st3, smn, smx⟩ := trip
      have hgoal : (varActS ctx (runAux ctx d) repl dr st2).evs =
          (if ctx.noDraw then [Ev.penUp] else []) ++ (runAux ctx d repl st2).evs := by
        simp [varActS, Out.pre, hr]
      rw [hgoal, numFwd_append, hcount]
      rcases ctx.noDraw <;> simp [numFwd]

lemma numFwd_runCall (ctx : Ctx) (d : ℕ) (ax : List Char) (st : TState)
    (hok : resOk (runCall ctx d ax st) = true) :
    numFwd (runCall ctx d ax st).evs = countDraws ctx.vars d ax := by
  unfold runCall at hok ⊢
  rw [resOk_pre] at hok
  rw [Out.pre_evs, numFwd_append, numFwd_runAux ctx d ax st hok]
  rcases ctx.noDraw <;> simp [numFwd]

lemma prodGrows_lookupAux (vars : Vars) :
    ∀ (l : Vars) (i : ℕ), prodGrows vars l i = true →
      ∀ (c : Char) (r : List Char) (dr : Bool), lookupVarAux l i c = some (r, dr) →
        (if dr then 1 else 0) + 1 ≤ dcount vars r := by
  intro l
  induction l with
  | nil => intro i _ c r dr hl; simp [lookupVarAux] at hl
  | cons kv rest ih =>
    intro i hg c r dr hl
    obtain ⟨k, p⟩ := kv
    simp only [prodGrows, Bool.and_eq_true, decide_eq_true_eq] at hg
    obtain ⟨hbound, hrest⟩ := hg
    by_cases hk : k = [c]
    · have hstep : lookupVarAux ((k, p) :: rest) i c = some (replOf p, drawOf i p) := by
        show (if k = [c] then some (replOf p, drawOf i p) else _) = _
        rw [if_pos hk]
      rw [hstep] at hl
      simp only [Option.some.injEq, Prod.mk.injEq] at hl
      obtain ⟨hr, hdr⟩ := hl
      subst hr
      subst hdr
      exact hbound
    · have hstep : lookupVarAux ((k, p) :: rest) i c = lookupVarAux rest (i + 1) c := by
        show (if k = [c] then _ else lookupVarAux rest (i + 1) c) = _
        rw [if_neg hk]
      rw [hstep] at hl
      exact ih (i + 1) hrest c r dr hl

lemma dcount_le_nvarsIn (vars : Vars) : ∀ s, dcount vars s ≤ nvarsIn vars s := by
  intro s
  induction s with
  | nil => simp [dcount, nvarsIn, csum]
  | cons c rest ih =>
    simp only [dcount, nvarsIn, csum]
    simp only [nvarsIn] at ih
    refine Nat.add_le_add ?_ ih
    by_cases hc : c.isUpper
    · cases hl : lookupVar vars c with
      | none => simp [hc, hl]
      | some rd =>
        obtain ⟨r, dr⟩ := rd
        cases dr <;> simp [hc, hl]
    · simp [hc]

lemma countDraws_step_ge (vars : Vars) (H : prodGrows vars vars 0 = true) :
    ∀ (d : ℕ) (s : List Char), countDraws vars d s + nvarsIn vars s ≤ countDraws vars (d + 1) s := by
  intro d
  induction d with
  | zero =>
    intro s
    induction s with
    | nil => simp [countDraws_zero, countDraws_succ, dcount, nvarsIn, csum]
    | cons c rest ihs =>
      rw [countDraws_succ, countDraws_zero] at ihs ⊢
      simp only [dcount, nvarsIn, csum] at ihs ⊢
      by_cases hc : c.isUpper
      · cases hl : lookupVar vars c with
        | none => simp only [hc, if_true, hl]; omega
        | some rd =>
          obtain ⟨r, dr⟩ := rd
          have hb := prodGrows_lookupAux vars vars 0 H c r dr hl
          cases dr <;> simp only [Bool.false_eq_true, if_false, if_true] at hb <;>
            simp [hc, hl] <;> omega
      · simp [hc]
        omega
  | succ d ihd =>
    intro s
    induction s with
    | nil => simp [countDraws_succ, csum, nvarsIn]
    | cons c rest ihs =>
      rw [countDraws_succ, countDraws_succ] at ihs ⊢
      simp only [nvarsIn, csum] at ihs ⊢
      by_cases hc : c.isUpper
      · cases hl : lookupVar vars c with
        | none => simp only [hc, if_true, hl]; omega
        | some rd =>
          obtain ⟨r, dr⟩ := rd
          have hb := prodGrows_lookupAux vars vars 0 H c r dr hl
          have hd1 : 1 ≤ dcount vars r := by
            cases dr <;> simp only [Bool.false_eq_true, if_false, if_true] at hb <;> omega
          have hnv : 1 ≤ nvarsIn vars r := le_trans hd1 (dcount_le_nvarsIn vars r)
          have hstep := ihd r
          simp [hc, hl]
          omega
      · simp [hc]
        omega

/-- Claim C9, amended: for every grammar in which each variable's production
contains strictly more draws-forward occurrences than the replaced variable
itself accounts for (at least one for a non-drawing variable, two for a
drawing one), and every axiom containing at least one declared variable,
a successful expansion to depth `d+1` performs strictly more forward
movements than a successful expansion of the same axiom to depth `d`;
string-length increase alone does not suffice (see the counterexample). -/
theorem C9_amended_thm (ctx : Ctx) (ax : List Char) (d : ℕ) (st st2 : TState)
    (H : prodGrows ctx.vars ctx.vars 0 = true) (hs : 1 ≤ nvarsIn ctx.vars ax)
    (h1 : resOk (runCall ctx d ax st) = true) (h2 : resOk (runCall ctx (d + 1) ax st2) = true) :
    numFwd (runCall ctx d ax st).evs < numFwd (runCall ctx (d + 1) ax st2).evs := by
  rw [numFwd_runCall ctx d ax st h1, numFwd_runCall ctx (d + 1) ax st2 h2]
  have := countDraws_step_ge ctx.vars H d ax
  omega

/-- Witness for C9: the Koch production `F ↦ "F+F--F+F"` (4 drawing
occurrences per replaced drawing variable) on axiom `"F"`: depth 1 draws
strictly more forward segments than depth 0. -/
theorem C9_w :
    numFwd (runCall ⟨unitDir90, [(['F'], Production.plain ['F', '+', 'F', '-', '-', 'F', '+', 'F'])],
        60, 10, false, true, none⟩ 0 ['F'] ⟨(0, 0), 90⟩).evs <
      numFwd (runCall ⟨unitDir90, [(['F'], Production.plain ['F', '+', 'F', '-', '-', 'F', '+', 'F'])],
        60, 10, false, true, none⟩ 1 ['F'] ⟨(0, 0), 90⟩).evs :=
  C9_amended_thm ⟨unitDir90, [(['F'], Production.plain ['F', '+', 'F', '-', '-', 'F', '+', 'F'])],
      60, 10, false, true, none⟩ ['F'] 0 ⟨(0, 0), 90⟩ ⟨(0, 0), 90⟩
    (by decide) (by decide) (by decide) (by decide)

lemma abs_maxByAbs (a b : ℚ) : |maxByAbs a b| = max |a| |b| := by
  unfold maxByAbs
  split_ifs with h
  · exact (max_eq_right h.le).symm
  · exact (max_eq_left (le_of_not_lt h)).symm

lemma abs_minByAbs (a b : ℚ) : |minByAbs a b| = min |a| |b| := by
  unfold minByAbs
  split_ifs with h
  · exact (min_eq_right h.le).symm
  · exact (min_eq_left (le_of_not_lt h)).symm

lemma specAutoFactor_eq_abs (mn mx : Cord) (W H step : ℚ) (hW : 0 < W) (hH : 0 < H)
    (hstep : step ≠ 0) :
    specAutoFactor mn mx W H step =
      9 / 10 * |minByAbs (W / maxByAbs mn.1 mx.1) (H / maxByAbs mn.2 mx.2)| * sgnStep step := by
  unfold specAutoFactor
  have hs : (if step > 0 then (1 : ℚ) else if step < 0 then -1 else 0) = sgnStep step := by
    unfold sgnStep
    rcases lt_trichotomy step 0 with h | h | h
    · rw [if_neg (by linarith), if_pos h, if_neg (by linarith)]
    · exact absurd h hstep
    · rw [if_pos h, if_pos h]
  rw [hs, abs_minByAbs, abs_div, abs_div, abs_of_pos hW, abs_of_pos hH,
    abs_maxByAbs, abs_maxByAbs]

/-- Claim C6, amended: with `compression_factor='auto'` the top-level call
first performs a full dry run with drawing suppressed (see `C6_cex` for the
concrete pipeline), and the step length is scaled by
`autoFactor = minByAbs(W/X*, H/Y*) * 0.9 * (step>0 ? 1 : -1)` where `X*`/`Y*`
are the dry-run extreme coordinates of largest absolute value kept with
their signs.  Its absolute value agrees with the spec's
`0.9 * min(W/maxAbsX, H/maxAbsY) * sign(step)`, and the two coincide exactly
when the selected signed ratio is positive; otherwise the code's factor is
the negation of the spec's. -/
theorem C6_amended_thm (mn mx : Cord) (W H step : ℚ)
    (hW : 0 < W) (hH : 0 < H) (hstep : step ≠ 0) :
    |autoFactor mn mx W H step| = |specAutoFactor mn mx W H step| ∧
    (autoFactor mn mx W H step = specAutoFactor mn mx W H step ∨
      autoFactor mn mx W H step = -specAutoFactor mn mx W H step) ∧
    (0 < minByAbs (W / maxByAbs mn.1 mx.1) (H / maxByAbs mn.2 mx.2) →
      autoFactor mn mx W H step = specAutoFactor mn mx W H step) := by
  have hsgn : sgnStep step = 1 ∨ sgnStep step = -1 := by
    unfold sgnStep; split_ifs <;> simp
  have habs_sgn : |sgnStep step| = 1 := by
    rcases hsgn with h | h <;> rw [h] <;> norm_num
  have hkey := specAutoFactor_eq_abs mn mx W H step hW hH hstep
  refine ⟨?_, ?_, ?_⟩
  · rw [hkey]
    unfold autoFactor
    rw [abs_mul, abs_mul, habs_sgn, abs_mul, abs_mul, habs_sgn, abs_abs,
      abs_of_pos (by norm_num : (0 : ℚ) < 9 / 10)]
    ring
  · rcases abs_choice (minByAbs (W / maxByAbs mn.1 mx.1) (H / maxByAbs mn.2 mx.2)) with h | h
    · left
      rw [hkey, h]
      unfold autoFactor
      ring
    · right
      rw [hkey, h]
      unfold autoFactor
      ring
  · intro hpos
    rw [hkey, abs_of_pos hpos]
    unfold autoFactor
    ring

/-- Witness for C6: extremes `(10, 20)` in the positive quadrant, window
100×100, step 10 — the selected ratio is positive and the code's factor
equals the spec's. -/
theorem C6_w :
    autoFactor (0, 0) (10, 20) 100 100 10 = specAutoFactor (0, 0) (10, 20) 100 100 10 :=
  (C6_amended_thm (0, 0) (10, 20) 100 100 10 (by norm_num) (by norm_num) (by norm_num)).2.2
    (by decide)

lemma loop_brackets (ctx : Ctx) (va : List Char → Bool → TState → VOut) (ax0 : List Char) :
    ∀ (rest : List Char) (idx : ℕ) (st : TState) (stack : List (Cord × ℚ)) (mn mx : Cord),
      (∀ c ∈ rest, c = '[' ∨ c = ']') →
      (∀ i, simBal rest stack.length idx = some i →
        (loop ctx va ax0 rest idx st stack mn mx).res = .error (.unmatchedBracket i)) ∧
      (simBal rest stack.length idx = none →
        resOk (loop ctx va ax0 rest idx st stack mn mx) = true ∧
        (loop ctx va ax0 rest idx st stack mn mx).warns =
          (if simSz rest stack.length = 0 then [] else [ax0])) := by
  intro rest
  induction rest with
  | nil =>
    intro idx st stack mn mx _
    constructor
    · intro i hi
      simp [simBal] at hi
    · intro _
      rw [loop_nil]
      refine ⟨by simp, ?_⟩
      cases stack <;> simp [simSz]
  | cons c rest ih =>
    intro idx st stack mn mx hbr
    have hrest : ∀ c ∈ rest, c = '[' ∨ c = ']' := fun c h => hbr c (by simp [h])
    rcases hbr c (by simp) with hc | hc
    · subst hc
      rw [loop_lbr]
      have := ih (idx + 1) st ((st.pos, st.head) :: stack) mn mx hrest
      simpa [simBal, simSz, List.length_cons] using this
    · subst hc
      match stack with
      | [] =>
        constructor
        · intro i hi
          simp [simBal] at hi
          rw [loop_rbr_nil, ← hi]
        · intro hnone
          simp [simBal] at hnone
      | (p, h) :: stack' =>
        rw [loop_rbr_cons]
        have := ih (idx + 1) ⟨p, hmod h⟩ stack' mn mx hrest
        simpa [simBal, simSz, List.length_cons] using this

/-- Claim C2, amended: each invocation (recursion level) has its own fresh
stored-states stack.  For an axiom consisting of brackets, at any depth: the
invocation fails with an unmatched-bracket error at exactly the first index
where a `]` meets the current level's empty stack (regardless of pushes in
enclosing levels — see the counterexample for the cross-level failure), and
otherwise completes, emitting a warning naming this level's own axiom
exactly when its stack is non-empty at the end of its own scan. -/
theorem C2_amended_thm (ctx : Ctx) (d : ℕ) (ax : List Char) (st : TState)
    (hbr : ∀ c ∈ ax, c = '[' ∨ c = ']') :
    (∀ i, simBal ax 0 0 = some i → (runCall ctx d ax st).res = .error (.unmatchedBracket i)) ∧
    (simBal ax 0 0 = none →
      resOk (runCall ctx d ax st) = true ∧
      (runCall ctx d ax st).warns = (if simSz ax 0 = 0 then [] else [ax])) := by
  have base : ∀ va : List Char → Bool → TState → VOut,
      (∀ i, simBal ax 0 0 = some i →
        (Out.pre (if ctx.noDraw then [Ev.penUp] else [])
          (loop ctx va ax ax 0 st [] (0, 0) (0, 0))).res = .error (.unmatchedBracket i)) ∧
      (simBal ax 0 0 = none →
        resOk (Out.pre (if ctx.noDraw then [Ev.penUp] else [])
          (loop ctx va ax ax 0 st [] (0, 0) (0, 0))) = true ∧
        (Out.pre (if ctx.noDraw then [Ev.penUp] else [])
          (loop ctx va ax ax 0 st [] (0, 0) (0, 0))).warns =
          (if simSz ax 0 = 0 then [] else [ax])) := by
    intro va
    have := loop_brackets ctx va ax ax 0 st [] (0, 0) (0, 0) hbr
    simpa using this
  cases d with
  | zero =>
    unfold runCall
    rw [runAux_zero]
    exact base _
  | succ d =>
    unfold runCall
    rw [runAux_succ]
    exact base _

/-- Witness for C2: one level processing `"["` alone completes and warns,
naming its own axiom `"["`. -/
theorem C2_w :
    resOk (runCall ⟨unitDir90, [], 90, 10, false, true, none⟩ 0 ['['] ⟨(0, 0), 0⟩) = true ∧
    (runCall ⟨unitDir90, [], 90, 10, false, true, none⟩ 0 ['['] ⟨(0, 0), 0⟩).warns =
      (if simSz ['['] 0 = 0 then [] else [['[']]) :=
  (C2_amended_thm ⟨unitDir90, [], 90, 10, false, true, none⟩ 0 ['['] ⟨(0, 0), 0⟩ (by decide)).2
    (by decide)

lemma cle_zero_refl : cle (0, 0) (0, 0) := ⟨le_refl 0, le_refl 0⟩

lemma cle_min2_left (a b : Cord) : cle (min2 a b) a := ⟨min_le_left _ _, min_le_left _ _⟩

lemma cle_max2_left (a b : Cord) : cle a (max2 a b) := ⟨le_max_left _ _, le_max_left _ _⟩

lemma cle_trans {a b c : Cord} (h1 : cle a b) (h2 : cle b c) : cle a c :=
  ⟨le_trans h1.1 h2.1, le_trans h1.2 h2.2⟩

lemma min2_assoc (a b c : Cord) : min2 (min2 a b) c = min2 a (min2 b c) := by
  simp [min2, min_assoc]

lemma max2_assoc (a b c : Cord) : max2 (max2 a b) c = max2 a (max2 b c) := by
  simp [max2, max_assoc]

lemma foldl_min2_hom (l : List Cord) : ∀ a b : Cord,
    List.foldl min2 (min2 a b) l = min2 a (List.foldl min2 b l) := by
  induction l with
  | nil => intro a b; rfl
  | cons x l ih =>
    intro a b
    show List.foldl min2 (min2 (min2 a b) x) l = min2 a (List.foldl min2 (min2 b x) l)
    rw [min2_assoc, ih]

lemma foldl_max2_hom (l : List Cord) : ∀ a b : Cord,
    List.foldl max2 (max2 a b) l = max2 a (List.foldl max2 b l) := by
  induction l with
  | nil => intro a b; rfl
  | cons x l ih =>
    intro a b
    show List.foldl max2 (max2 (max2 a b) x) l = max2 a (List.foldl max2 (max2 b x) l)
    rw [max2_assoc, ih]

lemma min2_absorb (a : Cord) (h : cle a (0, 0)) : min2 a (0, 0) = a := by
  obtain ⟨h1, h2⟩ := h
  simp [min2, min_eq_left h1, min_eq_left h2]

lemma max2_absorb (a : Cord) (h : cle (0, 0) a) : max2 a (0, 0) = a := by
  obtain ⟨h1, h2⟩ := h
  simp [max2, max_eq_left h1, max_eq_left h2]

lemma min2_zero_foldl (mn : Cord) (l : List Cord) (h : cle mn (0, 0)) :
    min2 mn (List.foldl min2 (0, 0) l) = List.foldl min2 mn l := by
  rw [← foldl_min2_hom, min2_absorb mn h]

lemma max2_zero_foldl (mx : Cord) (l : List Cord) (h : cle (0, 0) mx) :
    max2 mx (List.foldl max2 (0, 0) l) = List.foldl max2 mx l := by
  rw [← foldl_max2_hom, max2_absorb mx h]

@[simp]
lemma Out.res_mk (evs : List Ev) (w : List (List Char)) (r : Except Err (TState × Cord × Cord)) :
    (⟨evs, w, r⟩ : Out).res = r := rfl

@[simp]
lemma Out.evs_mk (evs : List Ev) (w : List (List Char)) (r : Except Err (TState × Cord × Cord)) :
    (⟨evs, w, r⟩ : Out).evs = evs := rfl

@[simp]
lemma Out.warns_mk (evs : List Ev) (w : List (List Char)) (r : Except Err (TState × Cord × Cord)) :
    (⟨evs, w, r⟩ : Out).warns = w := rfl

@[simp]
lemma vres_mk (evs : List Ev) (w : List (List Char))
    (r : Except Err (TState × Option (Cord × Cord))) : (⟨evs, w, r⟩ : VOut).res = r := rfl

@[simp]
lemma vevs_mk (evs : List Ev) (w : List (List Char))
    (r : Except Err (TState × Option (Cord × Cord))) : (⟨evs, w, r⟩ : VOut).evs = evs := rfl

lemma varAct0_true (ctx : Ctx) (repl : List Char) (st2 : TState) :
    varAct0 ctx repl true st2 =
      ⟨(if !ctx.static && !ctx.noDraw then [Ev.colorOp] else []) ++
          [Ev.forward ctx.step (fwd ctx st2)], [],
        .ok (⟨fwd ctx st2, st2.head⟩, some (fwd ctx st2, fwd ctx st2))⟩ := rfl

lemma varAct0_false (ctx : Ctx) (repl : List Char) (st2 : TState) :
    varAct0 ctx repl false st2 = ⟨[], [], .ok (st2, none)⟩ := rfl

lemma loop_box (ctx : Ctx) (va : List Char → Bool → TState → VOut) (ax0 : List Char)
    (hex : ctx.extrem = none)
    (hvaSome : ∀ repl dr st2 st3 a b, (va repl dr st2).res = .ok (st3, some (a, b)) →
      (∀ mn, cle mn (0, 0) → min2 mn a = List.foldl min2 mn (fwdEnds (va repl dr st2).evs)) ∧
      (∀ mx, cle (0, 0) mx → max2 mx b = List.foldl max2 mx (fwdEnds (va repl dr st2).evs)))
    (hvaNone : ∀ repl dr st2 st3, (va repl dr st2).res = .ok (st3, none) →
      fwdEnds (va repl dr st2).evs = []) :
    ∀ (rest : List Char) (idx : ℕ) (st : TState) (stack : List (Cord × ℚ)) (mn mx : Cord),
      cle mn (0, 0) → cle (0, 0) mx →
      ∀ (st' : TState) (rmn rmx : Cord),
        (loop ctx va ax0 rest idx st stack mn mx).res = .ok (st', rmn, rmx) →
        rmn = List.foldl min2 mn (fwdEnds (loop ctx va ax0 rest idx st stack mn mx).evs) ∧
        rmx = List.foldl max2 mx (fwdEnds (loop ctx va ax0 rest idx st stack mn mx).evs) := by
  intro rest
  induction rest with
  | nil =>
    intro idx st stack mn mx hmn hmx st' rmn rmx hres
    rw [loop_nil] at hres ⊢
    simp only [Out.res_mk, hex, Option.getD_none] at hres
    simp only [Out.evs_mk, fwdEnds_nil, List.foldl_nil]
    simp only [Except.ok.injEq, Prod.mk.injEq] at hres
    exact ⟨hres.2.1.symm, hres.2.2.symm⟩
  | cons c rest ih =>
    intro idx st stack mn mx hmn hmx st' rmn rmx hres
    by_cases h1 : c = '['
    · subst h1
      rw [loop_lbr] at hres ⊢
      exact ih (idx + 1) st _ mn mx hmn hmx st' rmn rmx hres
    · by_cases h2 : c = ']'
      · subst h2
        match stack with
        | [] =>
          rw [loop_rbr_nil] at hres
          simp at hres
        | (p, h) :: stack' =>
          rw [loop_rbr_cons] at hres ⊢
          rw [Out.pre_res] at hres
          have hinner := ih (idx + 1) ⟨p, hmod h⟩ stack' mn mx hmn hmx st' rmn rmx hres
          rw [Out.pre_evs]
          rcases hnd : ctx.noDraw <;> simpa [hnd] using hinner
      · by_cases h3 : c = '+'
        · subst h3
          rw [loop_plus] at hres ⊢
          rw [Out.pre_res] at hres
          have hinner := ih (idx + 1) ⟨st.pos, hmod (st.head + ctx.angle)⟩ stack mn mx hmn hmx
            st' rmn rmx hres
          rw [Out.pre_evs]
          simpa using hinner
        · by_cases h4 : c = '-'
          · subst h4
            rw [loop_minus] at hres ⊢
            rw [Out.pre_res] at hres
            have hinner := ih (idx + 1) ⟨st.pos, hmod (st.head - ctx.angle)⟩ stack mn mx hmn hmx
              st' rmn rmx hres
            rw [Out.pre_evs]
            simpa using hinner
          · by_cases h5 : c.isUpper
            · cases hl : lookupVar ctx.vars c with
              | none =>
                rw [loop_upper_none ctx va ax0 rest idx st stack mn mx c h5 h1 h2 h3 h4 hl] at hres
                simp at hres
              | some rd =>
                obtain ⟨repl, dr⟩ := rd
                rcases hv : va repl dr st with ⟨evs1, w1, res1⟩
                cases res1 with
                | error e =>
                  rw [loop_upper_err ctx va ax0 rest idx st stack mn mx c repl dr evs1 w1 e
                    h5 h1 h2 h3 h4 hl hv] at hres
                  simp at hres
                | ok stc =>
                  obtain ⟨st2, contrib⟩ := stc
                  rw [loop_upper_ok ctx va ax0 rest idx st stack mn mx c repl dr evs1 w1 st2
                    contrib h5 h1 h2 h3 h4 hl hv] at hres ⊢
                  simp only [Out.res_mk] at hres
                  simp only [Out.evs_mk]
                  rw [hex] at hres ⊢
                  cases contrib with
                  | none =>
                    simp only [mergeBox] at hres ⊢
                    have hends : fwdEnds evs1 = [] := by
                      have hn := hvaNone repl dr st st2 (by simp [hv])
                      rwa [hv, vevs_mk] at hn
                    have hinner := ih (idx + 1) st2 stack mn mx hmn hmx st' rmn rmx hres
                    rw [fwdEnds_append, hends, List.nil_append]
                    exact hinner
                  | some ab =>
                    obtain ⟨a, b⟩ := ab
                    simp only [mergeBox] at hres ⊢
                    have hS := hvaSome repl dr st st2 a b (by simp [hv])
                    rw [hv] at hS
                    simp only [vevs_mk] at hS
                    have hmn' : cle (min2 mn a) (0, 0) := cle_trans (cle_min2_left mn a) hmn
                    have hmx' : cle (0, 0) (max2 mx b) := cle_trans hmx (cle_max2_left mx b)
                    have hinner := ih (idx + 1) st2 stack (min2 mn a) (max2 mx b) hmn' hmx'
                      st' rmn rmx hres
                    constructor
                    · rw [fwdEnds_append, List.foldl_append, ← hS.1 mn hmn]
                      exact hinner.1
                    · rw [fwdEnds_append, List.foldl_append, ← hS.2 mx hmx]
                      exact hinner.2
            · rw [loop_invalid ctx va ax0 rest idx st stack mn mx c h5 h1 h2 h3 h4] at hres
              simp at hres

lemma runAux_box (ctx : Ctx) (hex : ctx.extrem = none) :
    ∀ (d : ℕ) (ax : List Char) (st : TState) (st' : TState) (rmn rmx : Cord),
      (runAux ctx d ax st).res = .ok (st', rmn, rmx) →
      rmn = List.foldl min2 (0, 0) (fwdEnds (runAux ctx d ax st).evs) ∧
      rmx = List.foldl max2 (0, 0) (fwdEnds (runAux ctx d ax st).evs) := by
  intro d
  induction d with
  | zero =>
    intro ax st st' rmn rmx hres
    rw [runAux_zero] at hres ⊢
    refine loop_box ctx (varAct0 ctx) ax hex ?_ ?_ ax 0 st [] (0, 0) (0, 0)
      cle_zero_refl cle_zero_refl st' rmn rmx hres
    · intro repl dr st2 st3 a b hok
      cases dr
      · rw [varAct0_false] at hok
        simp at hok
      · rw [varAct0_true] at hok
        simp only [vres_mk, Except.ok.injEq, Prod.mk.injEq, Option.some.injEq] at hok
        obtain ⟨-, ha, hb⟩ := hok
        subst ha
        subst hb
        constructor
        · intro mn _
          rw [varAct0_true, vevs_mk, fwdEnds_append]
          rcases (!ctx.static && !ctx.noDraw) <;> simp
        · intro mx _
          rw [varAct0_true, vevs_mk, fwdEnds_append]
          rcases (!ctx.static && !ctx.noDraw) <;> simp
    · intro repl dr st2 st3 hok
      cases dr
      · rw [varAct0_false]
        simp
      · rw [varAct0_true] at hok
        simp at hok
  | succ d ih =>
    intro ax st st' rmn rmx hres
    rw [runAux_succ] at hres ⊢
    refine loop_box ctx (varActS ctx (runAux ctx d)) ax hex ?_ ?_ ax 0 st [] (0, 0) (0, 0)
      cle_zero_refl cle_zero_refl st' rmn rmx hres
    · intro repl dr st2 st3 a b hok
      rcases hr : (runAux ctx d repl st2).res with e | trip
      · simp [varActS, hr] at hok
      · obtain ⟨st4, smn, smx⟩ := trip
        have hun : (varActS ctx (runAux ctx d) repl dr st2).res = .ok (st4, some (smn, smx)) := by
          simp [varActS, hr]
        rw [hun] at hok
        simp only [Except.ok.injEq, Prod.mk.injEq, Option.some.injEq] at hok
        obtain ⟨-, ha, hb⟩ := hok
        subst ha
        subst hb
        have hbox := ih repl st2 st4 smn smx hr
        have hevs : (varActS ctx (runAux ctx d) repl dr st2).evs =
            (if ctx.noDraw then [Ev.penUp] else []) ++ (runAux ctx d repl st2).evs := by
          simp [varActS, Out.pre, hr]
        have hends : fwdEnds (varActS ctx (runAux ctx d) repl dr st2).evs =
            fwdEnds (runAux ctx d repl st2).evs := by
          rw [hevs, fwdEnds_append]
          rcases ctx.noDraw <;> simp
        constructor
        · intro mn hmn
          rw [hends, hbox.1, min2_zero_foldl mn _ hmn]
        · intro mx hmx
          rw [hends, hbox.2, max2_zero_foldl mx _ hmx]
    · intro repl dr st2 st3 hok
      rcases hr : (runAux ctx d repl st2).res with e | trip
      · simp [varActS, hr] at hok
      · obtain ⟨st4, smn, smx⟩ := trip
        simp [varActS, hr] at hok

/-- Claim C7, amended: for every invocation whose bounding box is not
pre-fixed, the returned `(min, max)` pair is the component-wise minimum and
maximum over the origin `(0,0)` together with every forward-movement
endpoint of the invocation (including nested levels, merged bottom-up): the
running extremes start at 0 (line 224), so the returned box always contains
the origin and is not in general the minimal rectangle of the endpoints. -/
theorem C7_amended_thm (ctx : Ctx) (d : ℕ) (ax : List Char) (st st' : TState) (rmn rmx : Cord)
    (hex : ctx.extrem = none) (hok : (runCall ctx d ax st).res = .ok (st', rmn, rmx)) :
    rmn = List.foldl min2 (0, 0) (fwdEnds (runCall ctx d ax st).evs) ∧
    rmx = List.foldl max2 (0, 0) (fwdEnds (runCall ctx d ax st).evs) := by
  unfold runCall at hok ⊢
  rw [Out.pre_res] at hok
  have hbox := runAux_box ctx hex d ax st st' rmn rmx hok
  rw [Out.pre_evs, fwdEnds_append]
  rcases ctx.noDraw <;> simpa using hbox

/-- Witness for C7: the single step from `(5,5)` to `(5,15)`; the returned
box is the fold of min/max over the origin and that endpoint. -/
theorem C7_w :
    ((0 : ℚ), (0 : ℚ)) = List.foldl min2 (0, 0)
      (fwdEnds (runCall ⟨unitDir90, [(['F'], Production.plain ['F'])], 90, 10, false, true, none⟩
        0 ['F'] ⟨(5, 5), 90⟩).evs) ∧
    ((5 : ℚ), (15 : ℚ)) = List.foldl max2 (0, 0)
      (fwdEnds (runCall ⟨unitDir90, [(['F'], Production.plain ['F'])], 90, 10, false, true, none⟩
        0 ['F'] ⟨(5, 5), 90⟩).evs) :=
  C7_amended_thm ⟨unitDir90, [(['F'], Production.plain ['F'])], 90, 10, false, true, none⟩
    0 ['F'] ⟨(5, 5), 90⟩ ⟨(5, 15), 90⟩ (0, 0) (5, 15) rfl (by decide)

@[simp]
lemma exbind_ok (a : Unit) (f : Unit → Except Err Unit) :
    ((Except.ok a : Except Err Unit) >>= f) = f a := rfl

@[simp]
lemma exbind_error (e : Err) (f : Unit → Except Err Unit) :
    ((Except.error e : Except Err Unit) >>= f) = .error e := rfl

lemma validate_def (ax : List Char) (vars : Vars) :
    validate ax vars =
      (checkA vars >>= fun _ => checkB ax vars >>= fun _ => checkC vars vars none none) := rfl

lemma checkA_ok_iff (vars : Vars) :
    checkA vars = .ok () ↔ vars.all (fun kv => isValidKey kv.1) = true := by
  unfold checkA
  cases hf : vars.find? (fun kv => ! isValidKey kv.1) with
  | none =>
    constructor
    · intro _
      rw [List.all_eq_true]
      intro kv hm
      have hne := List.find?_eq_none.mp hf kv hm
      simpa using hne
    · intro _; rfl
  | some kv =>
    constructor
    · intro h; exact absurd h (by simp)
    · intro hall
      exfalso
      have h1 := List.find?_some hf
      have h2 := List.mem_of_find?_eq_some hf
      rw [List.all_eq_true] at hall
      have h3 := hall kv h2
      rw [h3] at h1
      simp at h1

lemma checkA_error (vars : Vars) (e : Err) (h : checkA vars = .error e) :
    ∃ kv, kv ∈ vars ∧ e = .badVar kv.1 ∧ isValidKey kv.1 = false := by
  unfold checkA at h
  cases hf : vars.find? (fun kv => ! isValidKey kv.1) with
  | none => rw [hf] at h; simp at h
  | some kv =>
    rw [hf] at h
    simp only [Except.error.injEq] at h
    have h1 := List.find?_some hf
    refine ⟨kv, List.mem_of_find?_eq_some hf, h.symm, ?_⟩
    simpa using h1

lemma checkA_find (vars : Vars) (kv : List Char × Production)
    (hf : vars.find? (fun kv => ! isValidKey kv.1) = some kv) :
    checkA vars = .error (.badVar kv.1) := by
  unfold checkA
  rw [hf]

lemma checkB_ok_iff (ax : List Char) (vars : Vars) :
    checkB ax vars = .ok () ↔ ax.all (validChar vars) = true := by
  unfold checkB
  cases hf : ax.find? (fun c => ! validChar vars c) with
  | none =>
    constructor
    · intro _
      rw [List.all_eq_true]
      intro c hm
      have hne := List.find?_eq_none.mp hf c hm
      simpa using hne
    · intro _; rfl
  | some c =>
    constructor
    · intro h; exact absurd h (by simp)
    · intro hall
      exfalso
      have h1 := List.find?_some hf
      have h2 := List.mem_of_find?_eq_some hf
      rw [List.all_eq_true] at hall
      have h3 := hall c h2
      rw [h3] at h1
      simp at h1

lemma checkB_error (ax : List Char) (vars : Vars) (e : Err) (h : checkB ax vars = .error e) :
    ∃ c, c ∈ ax ∧ e = .badAxiomChar c ∧ validChar vars c = false := by
  unfold checkB at h
  cases hf : ax.find? (fun c => ! validChar vars c) with
  | none => rw [hf] at h; simp at h
  | some c =>
    rw [hf] at h
    simp only [Except.error.injEq] at h
    have h1 := List.find?_some hf
    refine ⟨c, List.mem_of_find?_eq_some hf, h.symm, ?_⟩
    simpa using h1

lemma checkB_find (ax : List Char) (vars : Vars) (c : Char)
    (hf : ax.find? (fun c => ! validChar vars c) = some c) :
    checkB ax vars = .error (.badAxiomChar c) := by
  unfold checkB
  rw [hf]

lemma scanRepl_ok_of_all (vars : Vars) (v full : List Char) :
    ∀ (repl : List Char) (e3 : Option Char), repl.all (validChar vars) = true →
      ∃ e3', scanRepl vars v full repl e3 = .ok e3' := by
  intro repl
  induction repl with
  | nil => intro e3 _; exact ⟨e3, rfl⟩
  | cons c cs ih =>
    intro e3 hall
    simp only [List.all_cons, Bool.and_eq_true] at hall
    obtain ⟨hc, hcs⟩ := hall
    unfold scanRepl
    by_cases hk : isKeyOf vars c
    · rw [if_pos hk]
      exact ih e3 hcs
    · rw [if_neg hk]
      have hs : isSymb c = true := by
        unfold validChar at hc
        rcases Bool.or_eq_true _ _ |>.mp hc with h | h
        · exact absurd h hk
        · exact h
      rw [if_pos hs]
      exact ih (some c) hcs

lemma scanRepl_all_of_ok (vars : Vars) (v full : List Char) :
    ∀ (repl : List Char) (e3 e3' : Option Char), scanRepl vars v full repl e3 = .ok e3' →
      repl.all (validChar vars) = true := by
  intro repl
  induction repl with
  | nil => intro e3 e3' _; rfl
  | cons c cs ih =>
    intro e3 e3' h
    unfold scanRepl at h
    by_cases hk : isKeyOf vars c
    · rw [if_pos hk] at h
      simp only [List.all_cons, Bool.and_eq_true]
      exact ⟨by simp [validChar, hk], ih e3 e3' h⟩
    · rw [if_neg hk] at h
      by_cases hs : isSymb c
      · rw [if_pos hs] at h
        simp only [List.all_cons, Bool.and_eq_true]
        exact ⟨by simp [validChar, hs], ih (some c) e3' h⟩
      · rw [if_neg hs] at h
        simp at h

lemma scanRepl_error_spec (vars : Vars) (v full : List Char) :
    ∀ (repl : List Char) (e3 : Option Char) (e : Err), scanRepl vars v full repl e3 = .error e →
      ∃ c, c ∈ repl ∧ e = .badProdChar c full v ∧ validChar vars c = false := by
  intro repl
  induction repl with
  | nil => intro e3 e h; simp [scanRepl] at h
  | cons c cs ih =>
    intro e3 e h
    unfold scanRepl at h
    by_cases hk : isKeyOf vars c
    · rw [if_pos hk] at h
      obtain ⟨c', hm, he, hv⟩ := ih e3 e h
      exact ⟨c', by simp [hm], he, hv⟩
    · rw [if_neg hk] at h
      by_cases hs : isSymb c
      · rw [if_pos hs] at h
        obtain ⟨c', hm, he, hv⟩ := ih (some c) e h
        exact ⟨c', by simp [hm], he, hv⟩
      · rw [if_neg hs] at h
        simp only [Except.error.injEq] at h
        exact ⟨c, by simp, h.symm, by simp [validChar, hk, hs]⟩

lemma replExtract_error (p : Production) (e : Err) (h : replExtract p = .error e) :
    p = Production.plain [] ∧ e = .indexErr := by
  cases p with
  | plain s =>
    cases s with
    | nil =>
      simp only [replExtract, Except.error.injEq] at h
      exact ⟨rfl, h.symm⟩
    | cons c cs => simp [replExtract] at h
  | pair s b => simp [replExtract] at h

lemma replExtract_ok (p : Production) (r : List Char) (h : replExtract p = .ok r) :
    r = replOf p := by
  cases p with
  | plain s =>
    cases s with
    | nil => simp [replExtract] at h
    | cons c cs =>
      simp only [replExtract, Except.ok.injEq] at h
      simp [replOf, ← h]
  | pair s b =>
    simp only [replExtract, Except.ok.injEq] at h
    simp [replOf, ← h]

lemma replExtract_ok_nil (p : Production) (h : replExtract p = .ok []) :
    ∃ b, p = Production.pair [] b := by
  cases p with
  | plain s =>
    cases s with
    | nil => simp [replExtract] at h
    | cons c cs => simp [replExtract] at h
  | pair s b =>
    simp only [replExtract, Except.ok.injEq] at h
    exact ⟨b, by rw [← h]⟩

lemma checkC_cons_plainNil (vars : Vars) (v : List Char) (rest : Vars)
    (e2 : Option (List Char)) (e3 : Option Char) :
    checkC vars ((v, Production.plain []) :: rest) e2 e3 = .error .indexErr := rfl

lemma checkC_cons_extract (vars : Vars) (v : List Char) (p : Production) (rest : Vars)
    (e2 : Option (List Char)) (e3 : Option Char) (repl : List Char)
    (hext : replExtract p = .ok repl) :
    checkC vars ((v, p) :: rest) e2 e3 =
      (if v = [] then
        .error (match e3, e2 with
          | none, _ => .nameErr
          | some _, none => .nameErr
          | some c, some r => .badProdChar c r v)
      else
        if repl = [] then
          .error (match e3 with
            | none => .nameErr
            | some c => .badProdChar c repl v)
        else
          match scanRepl vars v repl repl e3 with
          | .error e => .error e
          | .ok e3' => checkC vars rest (some repl) e3') := by
  cases p with
  | plain s =>
    cases s with
    | nil => simp [replExtract] at hext
    | cons c cs =>
      simp only [replExtract, Except.ok.injEq] at hext
      subst hext
      rfl
  | pair s b =>
    simp only [replExtract, Except.ok.injEq] at hext
    subst hext
    rfl

lemma checkC_ok_iff (vars : Vars) :
    ∀ (l : Vars) (e2 : Option (List Char)) (e3 : Option Char), (∀ kv ∈ l, kv.1 ≠ []) →
      (checkC vars l e2 e3 = .ok () ↔
        l.all (fun kv => ! (replOf kv.2).isEmpty && (replOf kv.2).all (validChar vars)) = true) := by
  intro l
  induction l with
  | nil => intro e2 e3 _; simp [checkC]
  | cons kv rest ih =>
    intro e2 e3 hne
    obtain ⟨v, p⟩ := kv
    have hv : v ≠ [] := hne (v, p) (by simp)
    cases hext : replExtract p with
    | error e =>
      obtain ⟨hp, -⟩ := replExtract_error p e hext
      subst hp
      rw [checkC_cons_plainNil]
      constructor
      · intro h; simp at h
      · intro hall
        exfalso
        simp only [List.all_cons, Bool.and_eq_true] at hall
        obtain ⟨⟨hhead, -⟩, -⟩ := hall
        simp [replOf] at hhead
    | ok repl =>
      have hre := replExtract_ok p repl hext
      rw [checkC_cons_extract vars v p rest e2 e3 repl hext, if_neg hv]
      subst hre
      by_cases hr : replOf p = []
      · rw [if_pos hr]
        constructor
        · intro h; cases e3 <;> simp at h
        · intro hall
          exfalso
          simp only [List.all_cons, Bool.and_eq_true] at hall
          obtain ⟨⟨hhead, -⟩, -⟩ := hall
          have hemp : (replOf p).isEmpty = true := by rw [hr]; rfl
          rw [hemp] at hhead
          simp at hhead
      · rw [if_neg hr]
        cases hs : scanRepl vars v (replOf p) (replOf p) e3 with
        | error e =>
          constructor
          · intro h; simp at h
          · intro hall
            exfalso
            simp only [List.all_cons, Bool.and_eq_true] at hall
            obtain ⟨⟨-, hall1⟩, -⟩ := hall
            obtain ⟨e3', hs'⟩ := scanRepl_ok_of_all vars v (replOf p) (replOf p) e3 hall1
            rw [hs'] at hs
            simp at hs
        | ok e3' =>
          rw [ih (some (replOf p)) e3' (fun kv hm => hne kv (by simp [hm]))]
          have hall1 := scanRepl_all_of_ok vars v (replOf p) (replOf p) e3 e3' hs
          simp only [List.all_cons, Bool.and_eq_true]
          constructor
          · intro h
            exact ⟨⟨by simp [hr], hall1⟩, h⟩
          · rintro ⟨-, h⟩
            exact h

lemma checkC_badProd (vars : Vars) :
    ∀ (l : Vars) (e2 : Option (List Char)) (e3 : Option Char) (c : Char) (pstr v : List Char),
      (∀ kv ∈ l, kv.1 ≠ []) → checkC vars l e2 e3 = .error (.badProdChar c pstr v) →
      pstr ≠ [] →
      ∃ props, (v, props) ∈ l ∧ replOf props = pstr ∧ c ∈ pstr ∧ validChar vars c = false := by
  intro l
  induction l with
  | nil => intro e2 e3 c pstr v _ h _; simp [checkC] at h
  | cons kv rest ih =>
    intro e2 e3 c pstr v hne h hp
    obtain ⟨v0, p0⟩ := kv
    have hv0 : v0 ≠ [] := hne (v0, p0) (by simp)
    cases hext : replExtract p0 with
    | error e' =>
      obtain ⟨hp0, he'⟩ := replExtract_error p0 e' hext
      subst hp0
      rw [checkC_cons_plainNil] at h
      simp at h
    | ok repl =>
      have hre0 := replExtract_ok p0 repl hext
      rw [checkC_cons_extract vars v0 p0 rest e2 e3 repl hext, if_neg hv0] at h
      subst hre0
      by_cases hr : replOf p0 = []
      · rw [if_pos hr] at h
        cases e3 with
        | none => simp at h
        | some c' =>
          simp only [Except.error.injEq, Err.badProdChar.injEq] at h
          obtain ⟨-, h2, -⟩ := h
          rw [← h2] at hp
          exact absurd hr.symm (by simpa using hp)
      · rw [if_neg hr] at h
        cases hs : scanRepl vars v0 (replOf p0) (replOf p0) e3 with
        | error e =>
          rw [hs] at h
          simp only [Except.error.injEq] at h
          obtain ⟨c', hm, he, hval⟩ := scanRepl_error_spec vars v0 (replOf p0) (replOf p0) e3 e hs
          rw [h] at he
          simp only [Err.badProdChar.injEq] at he
          obtain ⟨hc, hpstr, hvv⟩ := he
          subst hc
          subst hpstr
          subst hvv
          exact ⟨p0, by simp, rfl, hm, hval⟩
        | ok e3' =>
          rw [hs] at h
          obtain ⟨props, hm, hre, hcm, hval⟩ :=
            ih (some (replOf p0)) e3' c pstr v (fun kv hm => hne kv (by simp [hm])) h hp
          exact ⟨props, by simp [hm], hre, hcm, hval⟩

lemma checkC_nameErr (vars : Vars) :
    ∀ (l : Vars) (e2 : Option (List Char)) (e3 : Option Char),
      (∀ kv ∈ l, kv.1 ≠ []) → checkC vars l e2 e3 = .error .nameErr →
      ∃ v b, (v, Production.pair [] b) ∈ l := by
  intro l
  induction l with
  | nil => intro e2 e3 _ h; simp [checkC] at h
  | cons kv rest ih =>
    intro e2 e3 hne h
    obtain ⟨v0, p0⟩ := kv
    have hv0 : v0 ≠ [] := hne (v0, p0) (by simp)
    cases hext : replExtract p0 with
    | error e' =>
      obtain ⟨hp0, -⟩ := replExtract_error p0 e' hext
      subst hp0
      rw [checkC_cons_plainNil] at h
      simp at h
    | ok repl =>
      rw [checkC_cons_extract vars v0 p0 rest e2 e3 repl hext, if_neg hv0] at h
      by_cases hr : repl = []
      · obtain ⟨b, hp0⟩ := replExtract_ok_nil p0 (by rw [← hr]; exact hext)
        exact ⟨v0, b, by rw [← hp0]; simp⟩
      · rw [if_neg hr] at h
        cases hs : scanRepl vars v0 repl repl e3 with
        | error e =>
          rw [hs] at h
          simp only [Except.error.injEq] at h
          obtain ⟨c', -, he, -⟩ := scanRepl_error_spec vars v0 repl repl e3 e hs
          rw [h] at he
          simp at he
        | ok e3' =>
          rw [hs] at h
          obtain ⟨v', b', hm⟩ := ih (some repl) e3' (fun kv hm => hne kv (by simp [hm])) h
          exact ⟨v', b', by simp [hm]⟩

lemma checkC_indexErr (vars : Vars) :
    ∀ (l : Vars) (e2 : Option (List Char)) (e3 : Option Char),
      (∀ kv ∈ l, kv.1 ≠ []) → checkC vars l e2 e3 = .error .indexErr →
      ∃ v, (v, Production.plain []) ∈ l := by
  intro l
  induction l with
  | nil => intro e2 e3 _ h; simp [checkC] at h
  | cons kv rest ih =>
    intro e2 e3 hne h
    obtain ⟨v0, p0⟩ := kv
    have hv0 : v0 ≠ [] := hne (v0, p0) (by simp)
    cases hext : replExtract p0 with
    | error e' =>
      obtain ⟨hp0, -⟩ := replExtract_error p0 e' hext
      exact ⟨v0, by rw [← hp0]; simp⟩
    | ok repl =>
      rw [checkC_cons_extract vars v0 p0 rest e2 e3 repl hext, if_neg hv0] at h
      by_cases hr : repl = []
      · rw [if_pos hr] at h
        cases e3 <;> simp at h
      · rw [if_neg hr] at h
        cases hs : scanRepl vars v0 repl repl e3 with
        | error e =>
          rw [hs] at h
          simp only [Except.error.injEq] at h
          obtain ⟨c', -, he, -⟩ := scanRepl_error_spec vars v0 repl repl e3 e hs
          rw [h] at he
          simp at he
        | ok e3' =>
          rw [hs] at h
          obtain ⟨v', hm⟩ := ih (some repl) e3' (fun kv hm => hne kv (by simp [hm])) h
          exact ⟨v', by simp [hm]⟩

lemma validKey_ne_nil (k : List Char) (h : isValidKey k = true) : k ≠ [] := by
  cases k with
  | nil => simp [isValidKey] at h
  | cons c cs => simp

lemma checkC_error_shape (vars : Vars) :
    ∀ (l : Vars) (e2 : Option (List Char)) (e3 : Option Char) (e : Err),
      checkC vars l e2 e3 = .error e →
      e = .nameErr ∨ e = .indexErr ∨ ∃ c pstr v, e = .badProdChar c pstr v := by
  intro l
  induction l with
  | nil => intro e2 e3 e h; simp [checkC] at h
  | cons kv rest ih =>
    intro e2 e3 e h
    obtain ⟨v0, p0⟩ := kv
    cases hext : replExtract p0 with
    | error e' =>
      obtain ⟨hp0, he'⟩ := replExtract_error p0 e' hext
      subst hp0
      rw [checkC_cons_plainNil] at h
      simp only [Except.error.injEq] at h
      exact Or.inr (Or.inl h.symm)
    | ok repl =>
      rw [checkC_cons_extract vars v0 p0 rest e2 e3 repl hext] at h
      by_cases hv : v0 = []
      · rw [if_pos hv] at h
        simp only [Except.error.injEq] at h
        cases e3 with
        | none => exact Or.inl h.symm
        | some c =>
          cases e2 with
          | none => exact Or.inl h.symm
          | some r => exact Or.inr (Or.inr ⟨c, r, v0, h.symm⟩)
      · rw [if_neg hv] at h
        by_cases hr : repl = []
        · rw [if_pos hr] at h
          simp only [Except.error.injEq] at h
          cases e3 with
          | none => exact Or.inl h.symm
          | some c => exact Or.inr (Or.inr ⟨c, repl, v0, h.symm⟩)
        · rw [if_neg hr] at h
          cases hs : scanRepl vars v0 repl repl e3 with
          | error e' =>
            rw [hs] at h
            simp only [Except.error.injEq] at h
            obtain ⟨c, -, he, -⟩ := scanRepl_error_spec vars v0 repl repl e3 e' hs
            exact Or.inr (Or.inr ⟨c, repl, v0, by rw [← h, he]⟩)
          | ok e3' =>
            rw [hs] at h
            exact ih (some repl) e3' e h

/-- Claim C1, amended: validation runs at the start of a top-level call and
succeeds exactly on valid grammars (keys single uppercase letters, axiom and
production characters in the alphabet, productions non-empty), checking in
order (a) keys, (b) axiom, (c) productions; failures in (a) and (b) raise a
`GrammarError` naming the first offending key / character, and a production
containing an invalid character raises a `GrammarError` naming that
character, the containing production, and the owning variable — but an empty
production never yields an error naming one of its (nonexistent) characters:
a plain-string empty production raises an `IndexError` (the list display
`[i[0], i]` on line 125 evaluates `''[0]` eagerly, before the subscript
selects the string branch), while a tuple production with empty replacement
reaches line 126 and escapes with a `NameError` (the message's scratch
variable `e3` unbound) or a `GrammarError` citing a stale character from an
earlier production (see the counterexample). -/
theorem C1_amended_thm (ax : List Char) (vars : Vars) :
    (validate ax vars = .ok () ↔ grammarOkSpec ax vars = true) ∧
    (∀ kv, vars.find? (fun kv => ! isValidKey kv.1) = some kv →
      validate ax vars = .error (.badVar kv.1)) ∧
    (∀ c, vars.all (fun kv => isValidKey kv.1) = true →
      ax.find? (fun c => ! validChar vars c) = some c →
      validate ax vars = .error (.badAxiomChar c)) ∧
    (∀ k, validate ax vars = .error (.badVar k) →
      ∃ p, (k, p) ∈ vars ∧ isValidKey k = false) ∧
    (∀ c, validate ax vars = .error (.badAxiomChar c) → c ∈ ax ∧ validChar vars c = false) ∧
    (∀ c pstr v, validate ax vars = .error (.badProdChar c pstr v) → pstr ≠ [] →
      ∃ props, (v, props) ∈ vars ∧ replOf props = pstr ∧ c ∈ pstr ∧ validChar vars c = false) ∧
    (validate ax vars = .error .nameErr → ∃ v b, (v, Production.pair [] b) ∈ vars) ∧
    (validate ax vars = .error .indexErr → ∃ v, (v, Production.plain []) ∈ vars) := by
  have hne_of_A : vars.all (fun kv => isValidKey kv.1) = true → ∀ kv ∈ vars, kv.1 ≠ [] := by
    intro hAt kv hm
    have hk := List.all_eq_true.mp hAt kv hm
    exact validKey_ne_nil kv.1 (by simpa using hk)
  refine ⟨?_, ?_, ?_, ?_, ?_, ?_, ?_, ?_⟩
  · rw [validate_def]
    unfold grammarOkSpec
    cases hA : checkA vars with
    | error e =>
      rw [exbind_error]
      constructor
      · intro h; simp at h
      · intro h
        exfalso
        rw [Bool.and_eq_true, Bool.and_eq_true] at h
        have hAt := h.1.1
        rw [← checkA_ok_iff] at hAt
        have hcontra := hA.symm.trans hAt
        simp at hcontra
    | ok u =>
      cases u
      rw [exbind_ok]
      cases hB : checkB ax vars with
      | error e =>
        rw [exbind_error]
        constructor
        · intro h; simp at h
        · intro h
          exfalso
          rw [Bool.and_eq_true, Bool.and_eq_true] at h
          have hBt := h.1.2
          rw [← checkB_ok_iff] at hBt
          have hcontra := hB.symm.trans hBt
          simp at hcontra
      | ok u2 =>
        cases u2
        rw [exbind_ok]
        have hAt : vars.all (fun kv => isValidKey kv.1) = true := (checkA_ok_iff vars).mp hA
        have hBt : ax.all (validChar vars) = true := (checkB_ok_iff ax vars).mp hB
        rw [checkC_ok_iff vars vars none none (hne_of_A hAt)]
        rw [Bool.and_eq_true, Bool.and_eq_true]
        constructor
        · intro h
          exact ⟨⟨hAt, hBt⟩, h⟩
        · intro h
          exact h.2
  · intro kv hf
    rw [validate_def, checkA_find vars kv hf, exbind_error]
  · intro c hAt hf
    have hA : checkA vars = .ok () := (checkA_ok_iff vars).mpr hAt
    rw [validate_def, hA, exbind_ok, checkB_find ax vars c hf, exbind_error]
  · intro k h
    rw [validate_def] at h
    cases hA : checkA vars with
    | error e =>
      rw [hA, exbind_error] at h
      simp only [Except.error.injEq] at h
      obtain ⟨kv, hm, he, hval⟩ := checkA_error vars e hA
      rw [h] at he
      simp only [Err.badVar.injEq] at he
      refine ⟨kv.2, ?_, ?_⟩
      · rw [he]
        simpa using hm
      · rw [he]
        exact hval
    | ok u =>
      cases u
      rw [hA, exbind_ok] at h
      cases hB : checkB ax vars with
      | error e =>
        rw [hB, exbind_error] at h
        simp only [Except.error.injEq] at h
        obtain ⟨c, -, he, -⟩ := checkB_error ax vars e hB
        rw [h] at he
        simp at he
      | ok u2 =>
        cases u2
        rw [hB, exbind_ok] at h
        rcases checkC_error_shape vars vars none none _ h with he | he | ⟨c, pstr, v, he⟩ <;>
          simp at he
  · intro c h
    rw [validate_def] at h
    cases hA : checkA vars with
    | error e =>
      rw [hA, exbind_error] at h
      simp only [Except.error.injEq] at h
      obtain ⟨kv, -, he, -⟩ := checkA_error vars e hA
      rw [h] at he
      simp at he
    | ok u =>
      cases u
      rw [hA, exbind_ok] at h
      cases hB : checkB ax vars with
      | error e =>
        rw [hB, exbind_error] at h
        simp only [Except.error.injEq] at h
        obtain ⟨c', hm, he, hval⟩ := checkB_error ax vars e hB
        rw [h] at he
        simp only [Err.badAxiomChar.injEq] at he
        rw [← he] at hm hval
        exact ⟨hm, hval⟩
      | ok u2 =>
        cases u2
        rw [hB, exbind_ok] at h
        rcases checkC_error_shape vars vars none none _ h with he | he | ⟨c', pstr, v, he⟩ <;>
          simp at he
  · intro c pstr v h hp
    rw [validate_def] at h
    cases hA : checkA vars with
    | error e =>
      rw [hA, exbind_error] at h
      simp only [Except.error.injEq] at h
      obtain ⟨kv, -, he, -⟩ := checkA_error vars e hA
      rw [h] at he
      simp at he
    | ok u =>
      cases u
      rw [hA, exbind_ok] at h
      cases hB : checkB ax vars with
      | error e =>
        rw [hB, exbind_error] at h
        simp only [Except.error.injEq] at h
        obtain ⟨c', -, he, -⟩ := checkB_error ax vars e hB
        rw [h] at he
        simp at he
      | ok u2 =>
        cases u2
        rw [hB, exbind_ok] at h
        have hAt : vars.all (fun kv => isValidKey kv.1) = true := (checkA_ok_iff vars).mp hA
        exact checkC_badProd vars vars none none c pstr v (hne_of_A hAt) h hp
  · intro h
    rw [validate_def] at h
    cases hA : checkA vars with
    | error e =>
      rw [hA, exbind_error] at h
      simp only [Except.error.injEq] at h
      obtain ⟨kv, -, he, -⟩ := checkA_error vars e hA
      rw [h] at he
      simp at he
    | ok u =>
      cases u
      rw [hA, exbind_ok] at h
      cases hB : checkB ax vars with
      | error e =>
        rw [hB, exbind_error] at h
        simp only [Except.error.injEq] at h
        obtain ⟨c', -, he, -⟩ := checkB_error ax vars e hB
        rw [h] at he
        simp at he
      | ok u2 =>
        cases u2
        rw [hB, exbind_ok] at h
        have hAt : vars.all (fun kv => isValidKey kv.1) = true := (checkA_ok_iff vars).mp hA
        exact checkC_nameErr vars vars none none (hne_of_A hAt) h
  · intro h
    rw [validate_def] at h
    cases hA : checkA vars with
    | error e =>
      rw [hA, exbind_error] at h
      simp only [Except.error.injEq] at h
      obtain ⟨kv, -, he, -⟩ := checkA_error vars e hA
      rw [h] at he
      simp at he
    | ok u =>
      cases u
      rw [hA, exbind_ok] at h
      cases hB : checkB ax vars with
      | error e =>
        rw [hB, exbind_error] at h
        simp only [Except.error.injEq] at h
        obtain ⟨c', -, he, -⟩ := checkB_error ax vars e hB
        rw [h] at he
        simp at he
      | ok u2 =>
        cases u2
        rw [hB, exbind_ok] at h
        have hAt : vars.all (fun kv => isValidKey kv.1) = true := (checkA_ok_iff vars).mp hA
        exact checkC_indexErr vars vars none none (hne_of_A hAt) h

/-- Witness for C1: the one-variable grammar `F ↦ "F"` with axiom `"F"` is
valid and validation succeeds. -/
theorem C1_w : validate ['F'] [(['F'], Production.plain ['F'])] = .ok () :=
  (C1_amended_thm ['F'] [(['F'], Production.plain ['F'])]).1.mpr (by decide)

end LSys
